import Mathlib

/-!
Verification of the slice-resource-utilization provisioning system.

The Python sources are shallowly embedded: numeric attributes (Python floats)
become exact rationals, networkx graphs become insertion-ordered association
lists (Python dicts are insertion-ordered with unique keys), and the
unweighted nx.shortest_path call becomes a deterministic breadth-first search
whose tie-break among equal-length paths is the adjacency insertion order.
The repository only ever invokes the pathfinding layer with weight=None, so
the embedding covers the hop-count cost used by the system.
-/

namespace SliceRes

/- The Batteries rational arithmetic operations are irreducible by default;
making them semireducible in this file lets concrete witness evaluations go
through the kernel via decide. -/
attribute [local semireducible] Rat.add Rat.sub Rat.mul Rat.inv

/-- First-match association-list lookup, mirroring Python dict access. -/
def aget {α β : Type} [DecidableEq α] : List (α × β) → α → Option β
  | [], _ => none
  | (k, v) :: rest, a => if k = a then some v else aget rest a

/-- Python dict assignment: replace the first matching key in place, else append. -/
def aset {α β : Type} [DecidableEq α] : List (α × β) → α → β → List (α × β)
  | [], a, b => [(a, b)]
  | (k, v) :: rest, a, b => if k = a then (k, b) :: rest else (k, v) :: aset rest a b

/-- Python dict del: remove the first entry with the given key (no-op if absent). -/
def adel {α β : Type} [DecidableEq α] : List (α × β) → α → List (α × β)
  | [], _ => []
  | (k, v) :: rest, a => if k = a then rest else (k, v) :: adel rest a

/-- Update the value at the first matching key in place; no-op if the key is absent.
Models mutating an existing dict entry. -/
def amod {α β : Type} [DecidableEq α] : List (α × β) → α → (β → β) → List (α × β)
  | [], _, _ => []
  | (k, v) :: rest, a, f => if k = a then (k, f v) :: rest else (k, v) :: amod rest a f

/-- Lexicographic comparison of character lists by code point, the order
Python string comparison uses. -/
def charListLe : List Char → List Char → Bool
  | [], _ => true
  | _ :: _, [] => false
  | c :: cs, d :: ds =>
    if c.toNat < d.toNat then true
    else if d.toNat < c.toNat then false
    else charListLe cs ds

/-- String comparison by code points (an executable equivalent of ≤). -/
def strLe (s t : String) : Bool := charListLe s.data t.data

/-- Canonical unordered link key: the lexicographically sorted pair of endpoints,
mirroring NetworkGraph._get_link_id (tuple(sorted([source, dest]))). -/
def linkId (source dest : String) : String × String :=
  if strLe source dest then (source, dest) else (dest, source)

/-- Attributes of a physical node, as set by add_physical_node.  A node created
implicitly by add_edge carries no attributes; the typed getters read such
attributes as 0 / no location, which the all-zero record reproduces. -/
structure PNode where
  cpu_initial : ℚ
  cpu_available : ℚ
  cpu_used : ℚ
  location : Option (ℚ × ℚ)
deriving DecidableEq, Repr

/-- Attributes of a physical link, as set by add_physical_link. -/
structure PLink where
  bandwidth_initial : ℚ
  bandwidth_available : ℚ
  bandwidth_used : ℚ
deriving DecidableEq, Repr

/-- One slice's entry in the allocation ledger (_slice_allocations values):
the node dict maps physical node to allocated cpu, the link dict maps the
canonical link key to the accumulated allocated bandwidth. -/
structure SliceAlloc where
  nodeAllocs : List (String × ℚ)
  linkAllocs : List ((String × String) × ℚ)
deriving DecidableEq, Repr

/-- The physical network: node and link attribute dicts (insertion-ordered) and
the per-slice allocation ledger. -/
structure PhysicalNetwork where
  nodes : List (String × PNode)
  links : List ((String × String) × PLink)
  sliceAllocations : List (String × SliceAlloc)
deriving DecidableEq, Repr

namespace PhysicalNetwork

def empty : PhysicalNetwork := ⟨[], [], []⟩

def getNode (net : PhysicalNetwork) (nodeId : String) : Option PNode :=
  aget net.nodes nodeId

def getLink (net : PhysicalNetwork) (source dest : String) : Option PLink :=
  aget net.links (linkId source dest)

def hasNode (net : PhysicalNetwork) (nodeId : String) : Bool :=
  (net.getNode nodeId).isSome

def hasLink (net : PhysicalNetwork) (source dest : String) : Bool :=
  (net.getLink source dest).isSome

/-- Ensure a node exists (networkx add_edge silently creates missing endpoint
nodes, with no attributes). -/
def ensureNode (net : PhysicalNetwork) (nodeId : String) : PhysicalNetwork :=
  if net.hasNode nodeId then net
  else { net with nodes := net.nodes ++ [(nodeId, ⟨0, 0, 0, none⟩)] }

/-- add_physical_node: sets cpu_initial = cpu_available = capacity, cpu_used = 0. -/
def add_physical_node (net : PhysicalNetwork) (nodeId : String) (cpuCapacity : ℚ)
    (location : ℚ × ℚ) : PhysicalNetwork :=
  { net with nodes := aset net.nodes nodeId ⟨cpuCapacity, cpuCapacity, 0, some location⟩ }

/-- add_physical_link: sets bandwidth_initial = bandwidth_available = bandwidth,
bandwidth_used = 0.  Implicitly creates missing endpoint nodes like nx add_edge. -/
def add_physical_link (net : PhysicalNetwork) (source dest : String) (bandwidth : ℚ) :
    PhysicalNetwork :=
  let net := (net.ensureNode source).ensureNode dest
  { net with links := aset net.links (linkId source dest) ⟨bandwidth, bandwidth, 0⟩ }

/-- get_node_cpu_initial: attribute value or 0.  The Python getter raises a
KeyError for a node absent from the graph (see getNodeAttributeE below); this
total version agrees with the source on every node present in the graph, which
covers every call site of the provisioning pipeline. -/
def get_node_cpu_initial (net : PhysicalNetwork) (nodeId : String) : ℚ :=
  ((net.getNode nodeId).map PNode.cpu_initial).getD 0

def get_node_cpu_available (net : PhysicalNetwork) (nodeId : String) : ℚ :=
  ((net.getNode nodeId).map PNode.cpu_available).getD 0

def get_node_cpu_used (net : PhysicalNetwork) (nodeId : String) : ℚ :=
  ((net.getNode nodeId).map PNode.cpu_used).getD 0

def get_node_location (net : PhysicalNetwork) (nodeId : String) : Option (ℚ × ℚ) :=
  (net.getNode nodeId).bind PNode.location

/-- get_link_bandwidth_initial: get_link_attribute guards with has_edge and
returns None for a missing link, which the `or 0.0` turns into 0. -/
def get_link_bandwidth_initial (net : PhysicalNetwork) (source dest : String) : ℚ :=
  ((net.getLink source dest).map PLink.bandwidth_initial).getD 0

def get_link_bandwidth_available (net : PhysicalNetwork) (source dest : String) : ℚ :=
  ((net.getLink source dest).map PLink.bandwidth_available).getD 0

def get_link_bandwidth_used (net : PhysicalNetwork) (source dest : String) : ℚ :=
  ((net.getLink source dest).map PLink.bandwidth_used).getD 0

/-- In-place update of one node's attribute record (two set_node_attribute calls). -/
def updNode (net : PhysicalNetwork) (nodeId : String) (f : PNode → PNode) :
    PhysicalNetwork :=
  { net with nodes := amod net.nodes nodeId f }

/-- In-place update of one link's attribute record; set_link_attribute is a
no-op when the link is absent (guarded by has_edge), matching amod. -/
def updLink (net : PhysicalNetwork) (source dest : String) (f : PLink → PLink) :
    PhysicalNetwork :=
  { net with links := amod net.links (linkId source dest) f }

/-- The `if slice_id not in self._slice_allocations` initialization step. -/
def ledgerEnsure (net : PhysicalNetwork) (sliceId : String) : PhysicalNetwork :=
  if (aget net.sliceAllocations sliceId).isSome then net
  else { net with sliceAllocations := net.sliceAllocations ++ [(sliceId, ⟨[], []⟩)] }

/-- allocate_node_resources: fails (no mutation) iff available < demand; else
decrements available, increments used, and records the allocation. -/
def allocate_node_resources (net : PhysicalNetwork) (nodeId : String)
    (cpuDemand : ℚ) (sliceId : String) : Bool × PhysicalNetwork :=
  let available := net.get_node_cpu_available nodeId
  if available < cpuDemand then (false, net)
  else
    let newUsed := net.get_node_cpu_used nodeId + cpuDemand
    let net1 := net.updNode nodeId fun p =>
      { p with cpu_available := available - cpuDemand, cpu_used := newUsed }
    let net2 := net1.ledgerEnsure sliceId
    let upd := fun a => { a with nodeAllocs := aset a.nodeAllocs nodeId cpuDemand }
    let net3 := { net2 with sliceAllocations := amod net2.sliceAllocations sliceId upd }
    (true, net3)

/-- The `links[link_id] = links.get(link_id, 0) + demand` accumulation used by
allocate_link_resources. -/
def linkAllocAdd (l : List ((String × String) × ℚ)) (key : String × String) (d : ℚ) :
    List ((String × String) × ℚ) :=
  match aget l key with
  | none => l ++ [(key, d)]
  | some old => aset l key (old + d)

/-- allocate_link_resources: fails (no mutation) iff available < demand; else
decrements available, increments used, and accumulates the ledger amount. -/
def allocate_link_resources (net : PhysicalNetwork) (source dest : String)
    (bandwidthDemand : ℚ) (sliceId : String) : Bool × PhysicalNetwork :=
  let available := net.get_link_bandwidth_available source dest
  if available < bandwidthDemand then (false, net)
  else
    let newUsed := net.get_link_bandwidth_used source dest + bandwidthDemand
    let net1 := net.updLink source dest fun p =>
      { p with bandwidth_available := available - bandwidthDemand, bandwidth_used := newUsed }
    let net2 := net1.ledgerEnsure sliceId
    let upd := fun a =>
      { a with linkAllocs := linkAllocAdd a.linkAllocs (linkId source dest) bandwidthDemand }
    let net3 := { net2 with sliceAllocations := amod net2.sliceAllocations sliceId upd }
    (true, net3)

/-- deallocate_node_resources: always succeeds; available grows by the amount,
used is clamped at 0, and the node's ledger entry is removed. -/
def deallocate_node_resources (net : PhysicalNetwork) (nodeId : String)
    (cpuAmount : ℚ) (sliceId : String) : PhysicalNetwork :=
  let available := net.get_node_cpu_available nodeId
  let used := net.get_node_cpu_used nodeId
  let net1 := net.updNode nodeId fun p =>
    { p with cpu_available := available + cpuAmount, cpu_used := max 0 (used - cpuAmount) }
  let upd := fun a => { a with nodeAllocs := adel a.nodeAllocs nodeId }
  { net1 with sliceAllocations := amod net1.sliceAllocations sliceId upd }

/-- The ledger update of deallocate_link_resources: subtract the amount and
delete the entry once it drops to 0 or below. -/
def linkAllocSub (l : List ((String × String) × ℚ)) (key : String × String) (d : ℚ) :
    List ((String × String) × ℚ) :=
  match aget l key with
  | none => l
  | some old => if old - d ≤ 0 then adel l key else aset l key (old - d)

/-- deallocate_link_resources: always succeeds; available grows, used is
clamped at 0, and the ledger amount is decremented (entry deleted at ≤ 0). -/
def deallocate_link_resources (net : PhysicalNetwork) (source dest : String)
    (bandwidthAmount : ℚ) (sliceId : String) : PhysicalNetwork :=
  let available := net.get_link_bandwidth_available source dest
  let used := net.get_link_bandwidth_used source dest
  let net1 := net.updLink source dest fun p =>
    { p with bandwidth_available := available + bandwidthAmount,
             bandwidth_used := max 0 (used - bandwidthAmount) }
  let upd := fun a =>
    { a with linkAllocs := linkAllocSub a.linkAllocs (linkId source dest) bandwidthAmount }
  { net1 with sliceAllocations := amod net1.sliceAllocations sliceId upd }

/-- Consecutive pairs of a node list: the links of a path. -/
def pathPairs : List String → List (String × String)
  | a :: b :: rest => (a, b) :: pathPairs (b :: rest)
  | _ => []

/-- The allocate-and-rollback loop of allocate_path_resources: allocate link by
link; on a failure, deallocate the links already allocated in this call
(in forward order, as the Python range(i) loop does) and report failure. -/
def allocPathGo (sliceId : String) (bandwidthDemand : ℚ) :
    PhysicalNetwork → List (String × String) → List (String × String) →
    Bool × PhysicalNetwork
  | net, [], _ => (true, net)
  | net, (u, v) :: rest, done =>
    let r := allocate_link_resources net u v bandwidthDemand sliceId
    if r.1 then allocPathGo sliceId bandwidthDemand r.2 rest (done ++ [(u, v)])
    else
      (false, done.foldl (fun n p => deallocate_link_resources n p.1 p.2 bandwidthDemand sliceId) r.2)

/-- allocate_path_resources: pre-check every link of the path, then allocate
link by link with a defensive rollback of the already-allocated prefix. -/
def allocate_path_resources (net : PhysicalNetwork) (path : List String)
    (bandwidthDemand : ℚ) (sliceId : String) : Bool × PhysicalNetwork :=
  if (pathPairs path).all
      (fun p => !(net.get_link_bandwidth_available p.1 p.2 < bandwidthDemand)) then
    allocPathGo sliceId bandwidthDemand net (pathPairs path) []
  else (false, net)

/-- deallocate_slice: replay a deallocation for every ledger entry of the slice
(nodes first, then links, over a snapshot of the entry), then drop the entry. -/
def deallocate_slice (net : PhysicalNetwork) (sliceId : String) : PhysicalNetwork :=
  match aget net.sliceAllocations sliceId with
  | none => net
  | some alloc =>
    let net1 := alloc.nodeAllocs.foldl
      (fun n p => deallocate_node_resources n p.1 p.2 sliceId) net
    let net2 := alloc.linkAllocs.foldl
      (fun n p => deallocate_link_resources n p.1.1 p.1.2 p.2 sliceId) net1
    { net2 with sliceAllocations := adel net2.sliceAllocations sliceId }

def get_slice_allocation (net : PhysicalNetwork) (sliceId : String) : Option SliceAlloc :=
  aget net.sliceAllocations sliceId

def get_active_slices (net : PhysicalNetwork) : List String :=
  net.sliceAllocations.map Prod.fst

end PhysicalNetwork

/-!
Breadth-first search.  nx.shortest_path with weight=None performs an
unweighted shortest-path search; this embedding fixes the deterministic
tie-break to adjacency insertion order.  Queue entries are reversed paths
(head = frontier node); discovered nodes are marked visited at enqueue time.
-/

/-- Process the neighbor list of the dequeued entry: skip visited neighbors,
return the extended (reversed) path when the target is reached, otherwise
enqueue and mark visited. -/
def bfsScan (target : String) (entry : List String) :
    List String → List (List String) → List String →
    Except (List String) (List (List String) × List String)
  | [], qAcc, visited => .ok (qAcc, visited)
  | nb :: rest, qAcc, visited =>
    if nb ∈ visited then bfsScan target entry rest qAcc visited
    else if nb = target then .error (nb :: entry)
    else bfsScan target entry rest (qAcc ++ [nb :: entry]) (visited ++ [nb])

/-- The BFS work loop, generic in the adjacency function.  The fuel only
bounds the number of dequeues; it is chosen large enough at every call site
(at most one enqueue per distinct node ever visited). -/
def bfsLoop (nbrs : String → List String) (target : String) :
    Nat → List (List String) → List String → Option (List String)
  | 0, _, _ => none
  | _ + 1, [], _ => none
  | fuel + 1, entry :: queue, visited =>
    match entry with
    | [] => bfsLoop nbrs target fuel queue visited
    | cur :: _ =>
      match bfsScan target entry (nbrs cur) queue visited with
      | .error found => some found.reverse
      | .ok (queue2, visited2) => bfsLoop nbrs target fuel queue2 visited2

/-- Unweighted shortest-path search from source to target over an adjacency
function (nx.shortest_path returns [source] when source = target). -/
def bfsSearch (nbrs : String → List String) (fuel : Nat) (source target : String) :
    Option (List String) :=
  if source = target then some [source]
  else bfsLoop nbrs target fuel [[source]] [source]

namespace PhysicalNetwork

/-- Adjacency (neighbor order = link insertion order, as in networkx) of the
graph obtained by deleting the given canonical edge keys and nodes — the
temp_graph of Yen's algorithm.  Empty removal lists give the plain graph. -/
def neighborsExcl (net : PhysicalNetwork) (removedEdges : List (String × String))
    (removedNodes : List String) (n : String) : List String :=
  net.links.filterMap fun e =>
    if e.1 ∈ removedEdges ∨ e.1.1 ∈ removedNodes ∨ e.1.2 ∈ removedNodes then none
    else if e.1.1 = n then some e.1.2
    else if e.1.2 = n then some e.1.1
    else none

/-- Fuel bound for BFS over this network: strictly more than one dequeue per
node that can ever be enqueued (source plus one per link endpoint). -/
def bfsFuel (net : PhysicalNetwork) : Nat :=
  net.nodes.length + 2 * net.links.length + 2

/-- Shortest path in the node/edge-deleted graph; none models the
NetworkXNoPath / NodeNotFound exceptions (absent or deleted endpoint,
or no path). -/
def shortestPathExcl (net : PhysicalNetwork) (removedEdges : List (String × String))
    (removedNodes : List String) (source target : String) : Option (List String) :=
  if source ∈ removedNodes ∨ target ∈ removedNodes ∨
      net.hasNode source = false ∨ net.hasNode target = false then none
  else bfsSearch (net.neighborsExcl removedEdges removedNodes) net.bfsFuel source target

/-- NetworkGraph.shortest_path: catches the exceptions and returns []. -/
def shortest_path (net : PhysicalNetwork) (source dest : String) : List String :=
  (net.shortestPathExcl [] [] source dest).getD []

/-- NetworkGraph.shortest_path_length: hop count, none models float inf. -/
def shortest_path_length (net : PhysicalNetwork) (source dest : String) : Option ℕ :=
  (net.shortestPathExcl [] [] source dest).map (fun p => p.length - 1)

end PhysicalNetwork

/-!
K-shortest-path module (Yen's algorithm with the bandwidth filter),
k_shortest_path.py.  Costs are hop counts (the repository only calls this
with weight=None).  A bandwidth of none models float inf (the value
_calculate_path_bandwidth returns for a path of fewer than two nodes).
-/

/-- Path record of k_shortest_path.py (nodes, cost, cached bottleneck). -/
structure YPath where
  nodes : List String
  cost : ℚ
  bandwidth : Option ℚ
deriving DecidableEq, Repr

/-- _calculate_path_bandwidth: inf (none) for short paths, else the minimum
available bandwidth over consecutive pairs (0 would stand for a missing link). -/
def calculate_path_bandwidth (net : PhysicalNetwork) (pathNodes : List String) :
    Option ℚ :=
  if pathNodes.length < 2 then none
  else
    some ((((PhysicalNetwork.pathPairs pathNodes).map
      (fun p => net.get_link_bandwidth_available p.1 p.2)).foldl
        (fun acc x => match acc with | none => some x | some m => some (min m x)) none).getD 0)

/-- bandwidth ≥ requirement, where none (inf) satisfies every requirement. -/
def bwGE (b : Option ℚ) (m : ℚ) : Bool :=
  match b with
  | none => true
  | some x => decide (m ≤ x)

/-- Path.__eq__ compares node lists only; membership in A / B uses it. -/
def containsPath (l : List YPath) (p : List String) : Bool :=
  l.any fun q => decide (q.nodes = p)

/-- One spur-node step of Yen's algorithm: build the root, delete the
already-used continuation edges and the root nodes, search the spur path,
and append a fresh bandwidth-feasible candidate to B. -/
def yenSpurFold (net : PhysicalNetwork) (target : String) (minBw : ℚ)
    (A : List YPath) (prev : List String) (B : List YPath) (i : Nat) : List YPath :=
  let rootPath := prev.take (i + 1)
  match rootPath.getLast? with
  | none => B
  | some spurNode =>
    let removedEdges := A.filterMap fun p =>
      if p.nodes.length > i + 1 ∧ p.nodes.take (i + 1) = rootPath then
        ((p.nodes.drop (i + 1)).head?).map (fun nxt => linkId spurNode nxt)
      else none
    let removedNodes := rootPath.dropLast
    match net.shortestPathExcl removedEdges removedNodes spurNode target with
    | none => B
    | some spurPath =>
      let total := rootPath.dropLast ++ spurPath
      let totalCost : ℚ := ((total.length - 1 : ℕ) : ℚ)
      let totalBw := calculate_path_bandwidth net total
      if bwGE totalBw minBw && !containsPath A total && !containsPath B total then
        B ++ [⟨total, totalCost, totalBw⟩]
      else B

/-- B.sort(key=lambda p: p.cost): stable ascending sort by cost. -/
def sortByCost (B : List YPath) : List YPath :=
  B.insertionSort fun a b => a.cost ≤ b.cost

/-- The `for k_iter in range(1, k)` loop: stop when A or B is exhausted,
otherwise promote the cheapest candidate from B into A. -/
def yenLoop (net : PhysicalNetwork) (target : String) (minBw : ℚ) :
    Nat → List YPath → List YPath → List YPath
  | 0, A, _ => A
  | n + 1, A, B =>
    match A.getLast? with
    | none => A
    | some prev =>
      let B2 := (List.range (prev.nodes.length - 1)).foldl
        (yenSpurFold net target minBw A prev.nodes) B
      match sortByCost B2 with
      | [] => A
      | best :: restB => yenLoop net target minBw n (A ++ [best]) restB

/-- yen_k_shortest_paths (weight=None): seed A with the bandwidth-checked
shortest path, then run k-1 promotion rounds. -/
def yen_k_shortest_paths (net : PhysicalNetwork) (source target : String)
    (k : ℕ) (minBandwidth : ℚ) : List YPath :=
  if source = target then []
  else if !net.hasNode source || !net.hasNode target then []
  else
    match net.shortestPathExcl [] [] source target with
    | none => []
    | some firstPath =>
      let firstCost : ℚ := ((firstPath.length - 1 : ℕ) : ℚ)
      let firstBw := calculate_path_bandwidth net firstPath
      let A := if bwGE firstBw minBandwidth then [YPath.mk firstPath firstCost firstBw] else []
      yenLoop net target minBandwidth (k - 1) A []

/-- k_shortest_paths_with_bandwidth: the wrapper's extra safety filter over
the cached bandwidth values. -/
def k_shortest_paths_with_bandwidth (net : PhysicalNetwork) (source target : String)
    (bandwidthDemand : ℚ) (k : ℕ) : List YPath :=
  (yen_k_shortest_paths net source target k bandwidthDemand).filter
    fun p => bwGE p.bandwidth bandwidthDemand

/-!
Slice requests (slice_request.py).  The mutable _status field lives in the
simulation state (the simulator mutates the shared request object); everything
else is the request's immutable data.
-/

inductive SliceStatus
  | pending
  | active
  | completed
  | rejected
deriving DecidableEq, Repr

/-- Attributes of a slice node, as set by add_slice_node. -/
structure SNodeAttrs where
  cpu_demand : ℚ
  expected_location : Option (ℚ × ℚ)
  max_deviation : ℚ
deriving DecidableEq, Repr

/-- A slice request: id, timing, and the demand graph. -/
structure SliceRequest where
  slice_id : String
  arrival_time : ℚ
  lifetime : ℚ
  departure_time : ℚ
  nodes : List (String × SNodeAttrs)
  links : List ((String × String) × ℚ)
deriving DecidableEq, Repr

/-- SliceRequest.__init__: departure_time = arrival_time + lifetime. -/
def mkSliceRequest (sliceId : String) (arrivalTime lifetime : ℚ) : SliceRequest :=
  ⟨sliceId, arrivalTime, lifetime, arrivalTime + lifetime, [], []⟩

namespace SliceRequest

def ensureNode (req : SliceRequest) (nodeId : String) : SliceRequest :=
  if (aget req.nodes nodeId).isSome then req
  else { req with nodes := req.nodes ++ [(nodeId, ⟨0, none, 0⟩)] }

def add_slice_node (req : SliceRequest) (nodeId : String) (cpuDemand : ℚ)
    (expectedLocation : ℚ × ℚ) (maxDeviation : ℚ) : SliceRequest :=
  { req with nodes := aset req.nodes nodeId ⟨cpuDemand, some expectedLocation, maxDeviation⟩ }

def add_slice_link (req : SliceRequest) (source dest : String) (bandwidthDemand : ℚ) :
    SliceRequest :=
  let req := (req.ensureNode source).ensureNode dest
  { req with links := aset req.links (linkId source dest) bandwidthDemand }

def get_node_cpu_demand (req : SliceRequest) (nodeId : String) : ℚ :=
  ((aget req.nodes nodeId).map SNodeAttrs.cpu_demand).getD 0

def get_node_expected_location (req : SliceRequest) (nodeId : String) : Option (ℚ × ℚ) :=
  (aget req.nodes nodeId).bind SNodeAttrs.expected_location

def get_node_max_deviation (req : SliceRequest) (nodeId : String) : ℚ :=
  ((aget req.nodes nodeId).map SNodeAttrs.max_deviation).getD 0

def get_link_bandwidth_demand (req : SliceRequest) (source dest : String) : ℚ :=
  (aget req.links (linkId source dest)).getD 0

/-- Slice graph adjacency in link insertion order. -/
def neighbors (req : SliceRequest) (n : String) : List String :=
  req.links.filterMap fun e =>
    if e.1.1 = n then some e.1.2
    else if e.1.2 = n then some e.1.1
    else none

/-- calculate_revenue (Equation 8): sum of all cpu and bandwidth demands. -/
def calculate_revenue (req : SliceRequest) : ℚ :=
  (req.nodes.map fun p => req.get_node_cpu_demand p.1).sum +
    (req.links.map fun e => req.get_link_bandwidth_demand e.1.1 e.1.2).sum

/-- calculate_cost (Equation 10): cpu demands plus hop-count-weighted
bandwidth demands over the link mapping. -/
def calculate_cost (req : SliceRequest)
    (linkMapping : List ((String × String) × List String)) : ℚ :=
  (req.nodes.map fun p => req.get_node_cpu_demand p.1).sum +
    (linkMapping.map fun e =>
      ((e.2.length - 1 : ℕ) : ℚ) * req.get_link_bandwidth_demand e.1.1 e.1.2).sum

end SliceRequest

/-!
Node metrics (resource_attributes.py, topology_attributes.py).  The metric
functions dispatch on the concrete graph type to pick which attribute stands
for capacity / bandwidth; the MetricGraph view captures exactly that choice
(available capacity for a physical network, demand for a slice request).
-/

/-- The graph view the four metric functions read. -/
structure MetricGraph where
  nodeIds : List String
  nodeVal : String → ℚ
  linkVal : String → String → ℚ
  nbrs : String → List String
  hasN : String → Bool
  fuel : ℕ

def PhysicalNetwork.toMetricGraph (net : PhysicalNetwork) : MetricGraph :=
  ⟨net.nodes.map Prod.fst, net.get_node_cpu_available, net.get_link_bandwidth_available,
    net.neighborsExcl [] [], net.hasNode, net.bfsFuel⟩

def SliceRequest.toMetricGraph (req : SliceRequest) : MetricGraph :=
  ⟨req.nodes.map Prod.fst, req.get_node_cpu_demand, req.get_link_bandwidth_demand,
    req.neighbors, fun n => (aget req.nodes n).isSome,
    req.nodes.length + 2 * req.links.length + 2⟩

namespace MetricGraph

/-- NetworkGraph.shortest_path seen through the view ([] when an endpoint is
absent or no path exists). -/
def shortest_path (g : MetricGraph) (source dest : String) : List String :=
  if g.hasN source = false ∨ g.hasN dest = false then []
  else (bfsSearch g.nbrs g.fuel source dest).getD []

/-- NetworkGraph.shortest_path_length through the view; none models inf. -/
def shortest_path_length (g : MetricGraph) (source dest : String) : Option ℕ :=
  if g.hasN source = false ∨ g.hasN dest = false then none
  else (bfsSearch g.nbrs g.fuel source dest).map fun p => p.length - 1

end MetricGraph

/-- Minimum of a list of rationals (0 for an empty list; callers only use
nonempty lists, where the Python float inf seed has already been absorbed). -/
def minList : List ℚ → ℚ
  | [] => 0
  | x :: rest => rest.foldl min x

/-- local_resource (Equation 12): capacity times the bandwidth sum over
adjacent links. -/
def local_resource (g : MetricGraph) (n : String) : ℚ :=
  g.nodeVal n * ((g.nbrs n).map fun nb => g.linkVal n nb).sum

/-- global_resource (Equation 13): over every other node, the bottleneck
bandwidth plus the bottleneck capacity along the shortest path, skipping
unreachable nodes, normalized by |V| - 1; 0 for graphs with at most 1 node. -/
def global_resource (g : MetricGraph) (n : String) : ℚ :=
  if g.nodeIds.length ≤ 1 then 0
  else
    let total := (g.nodeIds.map fun t =>
      if t = n then 0
      else
        let path := g.shortest_path n t
        if path.length < 2 then 0
        else
          minList ((PhysicalNetwork.pathPairs path).map fun p => g.linkVal p.1 p.2) +
            minList (path.map g.nodeVal)).sum
    total / ((g.nodeIds.length - 1 : ℕ) : ℚ)

/-- degree_centrality (Equation 14): degree / (|V| - 1); 0 for tiny graphs. -/
def degree_centrality (g : MetricGraph) (n : String) : ℚ :=
  if g.nodeIds.length ≤ 1 then 0
  else ((g.nbrs n).length : ℚ) / ((g.nodeIds.length - 1 : ℕ) : ℚ)

/-- closeness_centrality (Equation 15): (|V| - 1) / sum of hop distances to
reachable others; 0 for isolated nodes or tiny graphs. -/
def closeness_centrality (g : MetricGraph) (n : String) : ℚ :=
  if g.nodeIds.length ≤ 1 then 0
  else
    let dists := g.nodeIds.filterMap fun t =>
      if t = n then none else g.shortest_path_length n t
    if dists.sum = 0 ∨ dists.length = 0 then 0
    else ((g.nodeIds.length - 1 : ℕ) : ℚ) / ((dists.sum : ℕ) : ℚ)

/-- The four metrics of one node, as cached by NodeRanker._metric_cache. -/
structure NodeMetrics where
  lr : ℚ
  dc : ℚ
  gr : ℚ
  cc : ℚ
deriving DecidableEq, Repr

def computeMetrics (g : MetricGraph) (n : String) : NodeMetrics :=
  ⟨local_resource g n, degree_centrality g n, global_resource g n, closeness_centrality g n⟩

/-- Equation 16: S = alpha * LR * DC + beta * GR * CC. -/
def metricsScore (alpha beta : ℚ) (m : NodeMetrics) : ℚ :=
  alpha * m.lr * m.dc + beta * m.gr * m.cc

/-- NodeRanker._metric_cache, restricted to the physical network: its id() key
is constant for the one network of a run, so the cache is keyed by node. -/
abbrev MetricCache := List (String × NodeMetrics)

/-- compute_node_score with use_cache=True on the physical network. -/
def compute_node_score_cached (alpha beta : ℚ) (net : PhysicalNetwork)
    (cache : MetricCache) (n : String) : ℚ × MetricCache :=
  match aget cache n with
  | some m => (metricsScore alpha beta m, cache)
  | none =>
    let m := computeMetrics net.toMetricGraph n
    (metricsScore alpha beta m, cache ++ [(n, m)])

/-- rank_slice_nodes: score every slice node (uncached) and sort descending;
Python sorted(..., reverse=True) is stable, as is insertionSort with ≥. -/
def rank_slice_nodes (alpha beta : ℚ) (req : SliceRequest) : List (String × ℚ) :=
  (req.nodes.map fun p =>
      (p.1, metricsScore alpha beta (computeMetrics req.toMetricGraph p.1))).insertionSort
    fun a b => b.2 ≤ a.2

/-- cooperative_provisioning_coefficient (Equation 18): hop sum to the mapped
neighbors, with 1000 for each unreachable one; 0 when there are none. -/
def cooperative_provisioning_coefficient (net : PhysicalNetwork) (candidate : String)
    (mappedNeighbors : List String) : ℕ :=
  if mappedNeighbors.isEmpty then 0
  else mappedNeighbors.foldl
    (fun acc nb =>
      let path := net.shortest_path candidate nb
      if path.isEmpty then acc + 1000 else acc + (path.length - 1))
    0

/-- The scoring loop of rank_physical_nodes, threading the metric cache. -/
def rankPhysGo (alpha beta epsilon : ℚ) (net : PhysicalNetwork)
    (mappedNeighbors : List String) :
    List String → MetricCache → List (String × ℚ) → List (String × ℚ) × MetricCache
  | [], cache, acc => (acc, cache)
  | n :: rest, cache, acc =>
    let r := compute_node_score_cached alpha beta net cache n
    let h := cooperative_provisioning_coefficient net n mappedNeighbors
    let score := r.1 / ((h : ℚ) + epsilon)
    rankPhysGo alpha beta epsilon net mappedNeighbors rest r.2 (acc ++ [(n, score)])

/-- rank_physical_nodes (Equation 19): cached base score over the cooperative
coefficient plus epsilon, sorted descending (stable). -/
def rank_physical_nodes (alpha beta epsilon : ℚ) (net : PhysicalNetwork)
    (cache : MetricCache) (candidates mappedNeighbors : List String) :
    List (String × ℚ) × MetricCache :=
  let r := rankPhysGo alpha beta epsilon net mappedNeighbors candidates cache []
  (r.1.insertionSort fun a b => b.2 ≤ a.2, r.2)

/-- The location test distance > max_deviation: exact over the reals,
sqrt(d2) > maxDev iff maxDev < 0 or maxDev^2 < d2; a node without a location
is at distance inf and always excluded. -/
def distance_exceeds (net : PhysicalNetwork) (nodeId : String) (loc : ℚ × ℚ)
    (maxDev : ℚ) : Bool :=
  match net.get_node_location nodeId with
  | none => true
  | some nl =>
    let d2 := (nl.1 - loc.1) ^ 2 + (nl.2 - loc.2) ^ 2
    decide (maxDev < 0 ∨ maxDev ^ 2 < d2)

/-- get_candidate_physical_nodes: CPU filter plus location filter (skipped
when the slice node has no expected location). -/
def get_candidate_physical_nodes (req : SliceRequest) (net : PhysicalNetwork)
    (sliceNodeId : String) : List String :=
  let cpuDemand := req.get_node_cpu_demand sliceNodeId
  let expLoc := req.get_node_expected_location sliceNodeId
  let maxDev := req.get_node_max_deviation sliceNodeId
  net.nodes.filterMap fun p =>
    if net.get_node_cpu_available p.1 < cpuDemand then none
    else
      match expLoc with
      | none => some p.1
      | some loc => if distance_exceeds net p.1 loc maxDev then none else some p.1

/-!
Node provisioning (node_provisioning.py, Algorithm 1).
-/

/-- _get_mapped_neighbors: physical nodes hosting already-mapped neighbor
slice nodes, in adjacency order. -/
def get_mapped_neighbors (req : SliceRequest) (sliceNodeId : String)
    (mapping : List (String × String)) : List String :=
  (req.neighbors sliceNodeId).filterMap fun nb => aget mapping nb

/-- _rollback_node_mappings: deallocate every committed node in mapping order. -/
def rollback_node_mappings (req : SliceRequest) (mapping : List (String × String))
    (net : PhysicalNetwork) : PhysicalNetwork :=
  mapping.foldl
    (fun n p =>
      n.deallocate_node_resources p.2 (req.get_node_cpu_demand p.1) req.slice_id)
    net

/-- The per-slice-node loop of NodeProvisioner.provision: candidates, the
one-to-one filter, ranking, then allocation, with full rollback on any
failure. -/
def nodeProvisionGo (alpha beta epsilon : ℚ) (req : SliceRequest) :
    List String → PhysicalNetwork → MetricCache → List (String × String) →
    Option (List (String × String)) × PhysicalNetwork × MetricCache
  | [], net, cache, mapping => (some mapping, net, cache)
  | sliceNode :: rest, net, cache, mapping =>
    let candidates := get_candidate_physical_nodes req net sliceNode
    if candidates.isEmpty then (none, rollback_node_mappings req mapping net, cache)
    else
      let candidates2 := candidates.filter fun c => !(mapping.any fun q => decide (q.2 = c))
      if candidates2.isEmpty then (none, rollback_node_mappings req mapping net, cache)
      else
        let mappedNeighbors := get_mapped_neighbors req sliceNode mapping
        let r := rank_physical_nodes alpha beta epsilon net cache candidates2 mappedNeighbors
        match r.1 with
        | [] => (none, rollback_node_mappings req mapping net, r.2)
        | (best, _) :: _ =>
          let ar := net.allocate_node_resources best (req.get_node_cpu_demand sliceNode) req.slice_id
          if ar.1 then nodeProvisionGo alpha beta epsilon req rest ar.2 r.2 (mapping ++ [(sliceNode, best)])
          else (none, rollback_node_mappings req mapping ar.2, r.2)

/-- NodeProvisioner.provision: rank the slice nodes, then place them greedily. -/
def node_provision (alpha beta epsilon : ℚ) (req : SliceRequest)
    (net : PhysicalNetwork) (cache : MetricCache) :
    Option (List (String × String)) × PhysicalNetwork × MetricCache :=
  nodeProvisionGo alpha beta epsilon req
    ((rank_slice_nodes alpha beta req).map Prod.fst) net cache []

/-!
Link provisioning (link_provisioning.py, Algorithm 2).
-/

/-- _rank_slice_links_by_bandwidth: descending stable sort by demand. -/
def rank_slice_links_by_bandwidth (req : SliceRequest) : List (String × String) :=
  (req.links.map Prod.fst).insertionSort fun a b =>
    req.get_link_bandwidth_demand b.1 b.2 ≤ req.get_link_bandwidth_demand a.1 a.2

/-- The max link utilization along a path (0 stands in for the inf seed; links
with nonpositive initial bandwidth are skipped). -/
def pathMaxUtilization (net : PhysicalNetwork) (nodes : List String) : ℚ :=
  (PhysicalNetwork.pathPairs nodes).foldl
    (fun mx p =>
      let avail := net.get_link_bandwidth_available p.1 p.2
      let init := net.get_link_bandwidth_initial p.1 p.2
      if 0 < init then max mx (1 - avail / init) else mx)
    0

/-- _minmax_bw_util_hops (Equation 20): the first path minimizing
(max utilization) * hop count; none only on an empty candidate list. -/
def minmax_bw_util_hops (net : PhysicalNetwork) (paths : List YPath) : Option YPath :=
  let best := paths.foldl
    (fun acc p =>
      let gamma := pathMaxUtilization net p.nodes * ((p.nodes.length - 1 : ℕ) : ℚ)
      match acc with
      | none => some (p, gamma)
      | some (bp, bg) => if gamma < bg then some (p, gamma) else some (bp, bg))
    none
  match best with
  | some (bp, _) => some bp
  | none => paths.head?

/-- _rollback_link_mappings: deallocate the demand along every stored path. -/
def rollback_link_mappings (req : SliceRequest)
    (linkMapping : List ((String × String) × List String)) (net : PhysicalNetwork) :
    PhysicalNetwork :=
  linkMapping.foldl
    (fun n e =>
      let d := req.get_link_bandwidth_demand e.1.1 e.1.2
      (PhysicalNetwork.pathPairs e.2).foldl
        (fun n2 p => n2.deallocate_link_resources p.1 p.2 d req.slice_id) n)
    net

/-- The per-slice-link loop of LinkProvisioner.provision. -/
def linkProvisionGo (k : ℕ) (useMinmax : Bool) (req : SliceRequest)
    (mapping : List (String × String)) :
    List (String × String) → PhysicalNetwork → List ((String × String) × List String) →
    Option (List ((String × String) × List String)) × PhysicalNetwork
  | [], net, lm => (some lm, net)
  | slink :: rest, net, lm =>
    let demand := req.get_link_bandwidth_demand slink.1 slink.2
    match aget mapping slink.1, aget mapping slink.2 with
    | some psrc, some pdst =>
      match k_shortest_paths_with_bandwidth net psrc pdst demand k with
      | [] => (none, rollback_link_mappings req lm net)
      | c0 :: crest =>
        let best := if useMinmax then (minmax_bw_util_hops net (c0 :: crest)).getD c0 else c0
        let ar := net.allocate_path_resources best.nodes demand req.slice_id
        if ar.1 then linkProvisionGo k useMinmax req mapping rest ar.2 (lm ++ [(slink, best.nodes)])
        else (none, rollback_link_mappings req lm ar.2)
    | _, _ => (none, rollback_link_mappings req lm net)

/-- LinkProvisioner.provision: rank the slice links, then route them greedily. -/
def link_provision (k : ℕ) (useMinmax : Bool) (req : SliceRequest)
    (net : PhysicalNetwork) (mapping : List (String × String)) :
    Option (List ((String × String) × List String)) × PhysicalNetwork :=
  linkProvisionGo k useMinmax req mapping (rank_slice_links_by_bandwidth req) net []

/-!
RT-CSP / RT-CSP+ orchestration (rt_csp.py, Algorithm 3).
-/

structure ProvisioningResult where
  success : Bool
  node_mapping : List (String × String)
  link_mapping : List ((String × String) × List String)
  failure_reason : Option String
deriving DecidableEq, Repr

/-- Algorithm parameters; use_minmax_strategy = false is RT-CSP, true is
RT-CSP+ (the only difference between the two variants). -/
structure AlgParams where
  alpha : ℚ
  beta : ℚ
  k : ℕ
  epsilon : ℚ
  use_minmax_strategy : Bool
deriving DecidableEq, Repr

def nodeFailMsg : String := "Node provisioning failed: no feasible physical nodes"

def linkFailMsg : String := "Link provisioning failed: no feasible physical paths"

/-- RTCSP.provision_slice: two-phase commit — node phase, then link phase with
node rollback on link failure.  Also returns the mutated network and the
ranker's metric cache. -/
def provision_slice (p : AlgParams) (req : SliceRequest) (net : PhysicalNetwork)
    (cache : MetricCache) : ProvisioningResult × PhysicalNetwork × MetricCache :=
  match node_provision p.alpha p.beta p.epsilon req net cache with
  | (none, net1, cache1) => (⟨false, [], [], some nodeFailMsg⟩, net1, cache1)
  | (some nm, net1, cache1) =>
    match link_provision p.k p.use_minmax_strategy req net1 nm with
    | (none, net2) => (⟨false, [], [], some linkFailMsg⟩, rollback_node_mappings req nm net2, cache1)
    | (some lm, net2) => (⟨true, nm, lm, none⟩, net2, cache1)

/-!
Performance metrics (performance_metrics.py) and the discrete-event
simulator (simulator.py).
-/

structure Metrics where
  total_requests : ℕ
  accepted_requests : ℕ
  rejected_requests : ℕ
  total_revenue : ℚ
  total_cost : ℚ
  ts_time : List ℚ
  ts_acceptance : List ℚ
  ts_revenue : List ℚ
  ts_cost : List ℚ
  ts_rc : List ℚ
deriving DecidableEq, Repr

namespace Metrics

def init : Metrics := ⟨0, 0, 0, 0, 0, [], [], [], [], []⟩

/-- get_acceptance_ratio (Equation 7); 0 before any request. -/
def acceptanceFrac (m : Metrics) : ℚ :=
  if m.total_requests = 0 then 0 else (m.accepted_requests : ℚ) / (m.total_requests : ℚ)

def rejectionFrac (m : Metrics) : ℚ :=
  if m.total_requests = 0 then 0 else (m.rejected_requests : ℚ) / (m.total_requests : ℚ)

/-- get_revenue_cost_ratio (Equation 11); 0 when the cost is 0. -/
def revenueCostFrac (m : Metrics) : ℚ :=
  if m.total_cost = 0 then 0 else m.total_revenue / m.total_cost

/-- get_average_revenue (Equation 9); 0 for a nonpositive horizon. -/
def average_revenue (m : Metrics) (simulationTime : ℚ) : ℚ :=
  if simulationTime ≤ 0 then 0 else m.total_revenue / simulationTime

/-- record_request: count, and on acceptance add the revenue and (when a
mapping is supplied, as the simulator always does) the cost. -/
def record_request (m : Metrics) (req : SliceRequest) (accepted : Bool)
    (physicalMapping : Option (List ((String × String) × List String))) : Metrics :=
  let m := { m with total_requests := m.total_requests + 1 }
  if accepted then
    let m := { m with accepted_requests := m.accepted_requests + 1,
                      total_revenue := m.total_revenue + req.calculate_revenue }
    match physicalMapping with
    | some lm => { m with total_cost := m.total_cost + req.calculate_cost lm }
    | none => m
  else { m with rejected_requests := m.rejected_requests + 1 }

/-- record_time_point: append one sample to every time series. -/
def record_time_point (m : Metrics) (currentTime : ℚ) : Metrics :=
  { m with ts_time := m.ts_time ++ [currentTime],
           ts_acceptance := m.ts_acceptance ++ [m.acceptanceFrac],
           ts_revenue := m.ts_revenue ++ [m.total_revenue],
           ts_cost := m.ts_cost ++ [m.total_cost],
           ts_rc := m.ts_rc ++ [m.revenueCostFrac] }

end Metrics

/-- get_summary output. -/
structure Summary where
  total_requests : ℕ
  accepted_requests : ℕ
  rejected_requests : ℕ
  acceptFrac : ℚ
  rejectFrac : ℚ
  total_revenue : ℚ
  total_cost : ℚ
  revCostFrac : ℚ
  average_revenue : Option ℚ
  simulation_time : Option ℚ
deriving DecidableEq, Repr

def Metrics.get_summary (m : Metrics) (simulationTime : Option ℚ) : Summary :=
  ⟨m.total_requests, m.accepted_requests, m.rejected_requests,
    m.acceptanceFrac, m.rejectionFrac, m.total_revenue, m.total_cost,
    m.revenueCostFrac, simulationTime.map m.average_revenue, simulationTime⟩

/-- get_resource_utilization: aggregate percentages over the whole network. -/
structure Utilization where
  cpuPct : ℚ
  bwPct : ℚ
  total_cpu_initial : ℚ
  total_cpu_used : ℚ
  total_cpu_available : ℚ
  total_bandwidth_initial : ℚ
  total_bandwidth_used : ℚ
  total_bandwidth_available : ℚ
deriving DecidableEq, Repr

def PhysicalNetwork.get_resource_utilization (net : PhysicalNetwork) : Utilization :=
  let ci := (net.nodes.map fun p => net.get_node_cpu_initial p.1).sum
  let cu := (net.nodes.map fun p => net.get_node_cpu_used p.1).sum
  let bi := (net.links.map fun e => net.get_link_bandwidth_initial e.1.1 e.1.2).sum
  let bu := (net.links.map fun e => net.get_link_bandwidth_used e.1.1 e.1.2).sum
  ⟨if 0 < ci then cu / ci * 100 else 0, if 0 < bi then bu / bi * 100 else 0,
    ci, cu, ci - cu, bi, bu, bi - bu⟩

inductive EventType
  | arrival
  | departure
deriving DecidableEq, Repr

/-- A simulation event (time, kind, slice). -/
structure Event where
  time : ℚ
  event_type : EventType
  slice_request : SliceRequest
deriving DecidableEq, Repr

/-- heapq extraction through Event.__lt__ (time only): the earliest event;
the tie-break among equal times, unspecified in the source, is modelled
deterministically as first-inserted-first. -/
def popMinEvent : List Event → Option (Event × List Event)
  | [] => none
  | e :: rest =>
    match popMinEvent rest with
    | none => some (e, [])
    | some (m, rest2) => if m.time < e.time then some (m, e :: rest2) else some (e, rest)

/-- The simulator state: the network, the ranker's metric cache, the event
queue, the active-slice table, metrics, clocks and counters, and the
per-slice status table (the _status field of the shared request objects). -/
structure SimState where
  net : PhysicalNetwork
  cache : MetricCache
  event_queue : List Event
  active_slices : List (String × (SliceRequest × ProvisioningResult))
  metrics : Metrics
  current_time : ℚ
  total_arrivals : ℕ
  total_departures : ℕ
  statuses : List (String × SliceStatus)
  events_processed : ℕ
deriving DecidableEq, Repr

def initSimState (net : PhysicalNetwork) : SimState :=
  ⟨net, [], [], [], Metrics.init, 0, 0, 0, [], 0⟩

/-- add_slice_requests: push one arrival event per request. -/
def add_slice_requests (s : SimState) (reqs : List SliceRequest) : SimState :=
  { s with event_queue :=
      s.event_queue ++ reqs.map fun r => ⟨r.arrival_time, .arrival, r⟩ }

/-- _process_arrival: provision; on success mark active, store in the active
table, schedule the departure at departure_time, record acceptance; on
failure mark rejected and record the rejection. -/
def process_arrival (p : AlgParams) (s : SimState) (req : SliceRequest) : SimState :=
  let s := { s with total_arrivals := s.total_arrivals + 1 }
  let r := provision_slice p req s.net s.cache
  if r.1.success then
    { s with net := r.2.1, cache := r.2.2,
             statuses := aset s.statuses req.slice_id .active,
             active_slices := aset s.active_slices req.slice_id (req, r.1),
             event_queue := s.event_queue ++ [⟨req.departure_time, .departure, req⟩],
             metrics := s.metrics.record_request req true (some r.1.link_mapping) }
  else
    { s with net := r.2.1, cache := r.2.2,
             statuses := aset s.statuses req.slice_id .rejected,
             metrics := s.metrics.record_request req false none }

/-- _process_departure: count it; if the slice is not active, stop (defensive
no-op); else release everything via deallocate_slice, mark completed, and
drop it from the active table. -/
def process_departure (s : SimState) (req : SliceRequest) : SimState :=
  let s := { s with total_departures := s.total_departures + 1 }
  match aget s.active_slices req.slice_id with
  | none => s
  | some _ =>
    { s with net := s.net.deallocate_slice req.slice_id,
             statuses := aset s.statuses req.slice_id .completed,
             active_slices := adel s.active_slices req.slice_id }

/-- Process one dequeued event: advance the clock, dispatch, and take the
periodic metrics sample every 100 events. -/
def processEvent (p : AlgParams) (s : SimState) (ev : Event) : SimState :=
  let s := { s with current_time := ev.time }
  let s :=
    match ev.event_type with
    | .arrival => process_arrival p s ev.slice_request
    | .departure => process_departure s ev.slice_request
  let s := { s with events_processed := s.events_processed + 1 }
  if s.events_processed % 100 = 0 then
    { s with metrics := s.metrics.record_time_point s.current_time }
  else s

/-- The while loop of run: pop the earliest event, stop past max_time,
else process.  The fuel only bounds iterations and is chosen at the call
site strictly above the number of events ever processed. -/
def simLoop (p : AlgParams) (maxTime : Option ℚ) : ℕ → SimState → SimState
  | 0, s => s
  | fuel + 1, s =>
    match popMinEvent s.event_queue with
    | none => s
    | some (ev, rest) =>
      match maxTime with
      | some mt =>
        if mt < ev.time then s
        else simLoop p maxTime fuel (processEvent p { s with event_queue := rest } ev)
      | none => simLoop p maxTime fuel (processEvent p { s with event_queue := rest } ev)

/-- run: drain the queue, then take the final metrics sample.  An arrival
enqueues at most one departure and a departure enqueues nothing, so a queue
of n arrivals yields at most 2n dequeues; fuel 2n + 1 never truncates. -/
def SimState.run (p : AlgParams) (maxTime : Option ℚ) (s : SimState) : SimState :=
  let s2 := simLoop p maxTime (2 * s.event_queue.length + 1) s
  { s2 with metrics := s2.metrics.record_time_point s2.current_time }

/-- The results object of _get_results. -/
structure SimResults where
  simulation_time : ℚ
  total_arrivals : ℕ
  total_departures : ℕ
  metricsSummary : Summary
  final_utilization : Utilization
deriving DecidableEq, Repr

def SimState.get_results (s : SimState) : SimResults :=
  ⟨s.current_time, s.total_arrivals, s.total_departures,
    s.metrics.get_summary (some s.current_time), s.net.get_resource_utilization⟩

/-- One whole simulation run over a physical network and an ordered request
list. -/
def run_simulation (p : AlgParams) (net : PhysicalNetwork)
    (reqs : List SliceRequest) (maxTime : Option ℚ) : SimState :=
  (add_slice_requests (initSimState net) reqs).run p maxTime

/-!
The raw NetworkGraph attribute accessors (network_graph.py).
get_node_attribute indexes self.graph.nodes[node_id] first, and the
networkx NodeView raises KeyError for a node absent from the graph;
get_link_attribute guards with has_edge and returns None instead.
-/

inductive NodeAttr
  | cpuInitialAttr
  | cpuAvailableAttr
  | cpuUsedAttr
  | locationAttr
deriving DecidableEq, Repr

inductive AttrValue
  | num (x : ℚ)
  | point (p : ℚ × ℚ)
deriving DecidableEq, Repr

/-- get_node_attribute: .error () models the KeyError that escapes when the
node is absent; otherwise the attribute value or none (attribute missing). -/
def getNodeAttributeE (net : PhysicalNetwork) (nodeId : String) (a : NodeAttr) :
    Except Unit (Option AttrValue) :=
  match net.getNode nodeId with
  | none => .error ()
  | some p =>
    .ok (match a with
      | .cpuInitialAttr => some (.num p.cpu_initial)
      | .cpuAvailableAttr => some (.num p.cpu_available)
      | .cpuUsedAttr => some (.num p.cpu_used)
      | .locationAttr => p.location.map .point)

inductive LinkAttr
  | bwInitialAttr
  | bwAvailableAttr
  | bwUsedAttr
deriving DecidableEq, Repr

/-- get_link_attribute: total — a missing link yields none, never an error. -/
def getLinkAttributeE (net : PhysicalNetwork) (source dest : String) (a : LinkAttr) :
    Option AttrValue :=
  match net.getLink source dest with
  | none => none
  | some p =>
    some (match a with
      | .bwInitialAttr => .num p.bandwidth_initial
      | .bwAvailableAttr => .num p.bandwidth_available
      | .bwUsedAttr => .num p.bandwidth_used)

instance : DecidableEq (Except Unit (Option AttrValue)) := fun a b =>
  match a, b with
  | .error x, .error y => isTrue (by cases x; cases y; rfl)
  | .ok x, .ok y =>
    match decEq x y with
    | isTrue h => isTrue (by rw [h])
    | isFalse h => isFalse (by intro hh; cases hh; exact h rfl)
  | .error _, .ok _ => isFalse (by intro hh; cases hh)
  | .ok _, .error _ => isFalse (by intro hh; cases hh)

/-!
An operation language over the four public allocation entry points, for
stating the resource-conservation invariant over arbitrary call sequences.
-/

inductive ResOp
  | allocNode (nodeId : String) (amount : ℚ) (sliceId : String)
  | allocLink (source dest : String) (amount : ℚ) (sliceId : String)
  | deallocNode (nodeId : String) (amount : ℚ) (sliceId : String)
  | deallocLink (source dest : String) (amount : ℚ) (sliceId : String)
deriving DecidableEq, Repr

def ResOp.amount : ResOp → ℚ
  | .allocNode _ a _ => a
  | .allocLink _ _ a _ => a
  | .deallocNode _ a _ => a
  | .deallocLink _ _ a _ => a

def applyOp (net : PhysicalNetwork) : ResOp → PhysicalNetwork
  | .allocNode n a s => (net.allocate_node_resources n a s).2
  | .allocLink u v a s => (net.allocate_link_resources u v a s).2
  | .deallocNode n a s => net.deallocate_node_resources n a s
  | .deallocLink u v a s => net.deallocate_link_resources u v a s

def applyOps (net : PhysicalNetwork) (ops : List ResOp) : PhysicalNetwork :=
  ops.foldl applyOp net

/-- The per-node counter invariant: available + used = initial and
available ≥ 0, for every node entry. -/
def NodeConserved (net : PhysicalNetwork) : Prop :=
  ∀ p ∈ net.nodes, p.2.cpu_available + p.2.cpu_used = p.2.cpu_initial ∧ 0 ≤ p.2.cpu_available

/-- The per-link counter invariant. -/
def LinkConserved (net : PhysicalNetwork) : Prop :=
  ∀ e ∈ net.links,
    e.2.bandwidth_available + e.2.bandwidth_used = e.2.bandwidth_initial ∧
      0 ≤ e.2.bandwidth_available

def CountersOK (net : PhysicalNetwork) : Prop :=
  NodeConserved net ∧ LinkConserved net

/-- A deallocation is safe when it releases no more than the currently-used
amount of its resource; allocations are always safe. -/
def safeHead (net : PhysicalNetwork) : ResOp → Bool
  | .deallocNode n a _ => decide (a ≤ net.get_node_cpu_used n)
  | .deallocLink u v a _ => decide (a ≤ net.get_link_bandwidth_used u v)
  | _ => true

/-- Executable check that no deallocation in the sequence releases more than
the resource's currently-used amount at its execution point (the pattern of
every rollback and of deallocate_slice, which only reverse prior
allocations). -/
def safeDealloc : PhysicalNetwork → List ResOp → Bool
  | _, [] => true
  | net, op :: rest => safeHead net op && safeDealloc (applyOp net op) rest

/-!
Observation functions and the provisioning-attempt invariant used to prove
rollback exactness (claims C2 and C9).
-/

/-- Available bandwidth of a link by its stored canonical key. -/
def lAvailK (net : PhysicalNetwork) (k : String × String) : ℚ :=
  ((aget net.links k).map PLink.bandwidth_available).getD 0

def lUsedK (net : PhysicalNetwork) (k : String × String) : ℚ :=
  ((aget net.links k).map PLink.bandwidth_used).getD 0

/-- All four resource counters agree between two networks. -/
def CountersEq (a b : PhysicalNetwork) : Prop :=
  (∀ n, a.get_node_cpu_available n = b.get_node_cpu_available n ∧
    a.get_node_cpu_used n = b.get_node_cpu_used n) ∧
  (∀ k, lAvailK a k = lAvailK b k ∧ lUsedK a k = lUsedK b k)

/-- Every used counter of the network is nonnegative (true of every network
reachable from a fresh one by the public operations). -/
def UsedNonneg (net : PhysicalNetwork) : Prop :=
  (∀ p ∈ net.nodes, 0 ≤ p.2.cpu_used) ∧ (∀ e ∈ net.links, 0 ≤ e.2.bandwidth_used)

/-- All cpu and bandwidth demands of a slice are strictly positive (the
spec's well-formedness boundary: non-positive demands are malformed input). -/
def PositiveDemands (req : SliceRequest) : Prop :=
  (∀ p ∈ req.nodes, 0 < p.2.cpu_demand) ∧ (∀ e ∈ req.links, 0 < e.2)

/-- Unique node and link keys, as Python dicts guarantee by construction. -/
def SliceWF (req : SliceRequest) : Prop :=
  (req.nodes.map Prod.fst).Nodup ∧ (req.links.map Prod.fst).Nodup

instance (net : PhysicalNetwork) : Decidable (NodeConserved net) := by
  unfold NodeConserved; infer_instance

instance (net : PhysicalNetwork) : Decidable (LinkConserved net) := by
  unfold LinkConserved; infer_instance

instance (net : PhysicalNetwork) : Decidable (CountersOK net) := by
  unfold CountersOK; infer_instance

instance (net : PhysicalNetwork) : Decidable (UsedNonneg net) := by
  unfold UsedNonneg; infer_instance

instance (req : SliceRequest) : Decidable (PositiveDemands req) := by
  unfold PositiveDemands; infer_instance

instance (req : SliceRequest) : Decidable (SliceWF req) := by
  unfold SliceWF; infer_instance

/-- Sum of the amounts a pending-allocation list assigns to one node. -/
def npAmt (np : List (String × ℚ)) (n : String) : ℚ :=
  ((np.filter fun e => e.1 = n).map Prod.snd).sum

/-- Sum of the amounts a pending-allocation multiset assigns to one link key. -/
def lpAmt (lp : Multiset ((String × String) × ℚ)) (k : String × String) : ℚ :=
  ((lp.filter fun e => e.1 = k).map Prod.snd).sum

/-- The node-allocation list an established node mapping stands for. -/
def mappingAllocs (req : SliceRequest) (mapping : List (String × String)) :
    List (String × ℚ) :=
  mapping.map fun e => (e.2, req.get_node_cpu_demand e.1)

/-- The link-allocation multiset an established link mapping stands for. -/
def lmAllocs (req : SliceRequest) (lm : List ((String × String) × List String)) :
    Multiset ((String × String) × ℚ) :=
  (lm.flatMap fun e =>
    (PhysicalNetwork.pathPairs e.2).map fun p =>
      (linkId p.1 p.2, req.get_link_bandwidth_demand e.1.1 e.1.2) : List _)

/-- The ledger entry's link dict represents a pending multiset: a key is
present exactly while its pending sum is positive, with that sum as value. -/
def LedgerLinksRep (la : List ((String × String) × ℚ))
    (lp : Multiset ((String × String) × ℚ)) : Prop :=
  (la.map Prod.fst).Nodup ∧
    ∀ k, aget la k = if lpAmt lp k = 0 then none else some (lpAmt lp k)

/-- The invariant of a provisioning attempt for slice sid relative to the
pre-attempt network net0 (whose ledger has no entry for sid): tch records
whether any allocation has touched the ledger yet, np / lp are the pending
node and link allocations. -/
def AttemptInv (net0 : PhysicalNetwork) (sid : String) (tch : Bool)
    (np : List (String × ℚ)) (lp : Multiset ((String × String) × ℚ))
    (net : PhysicalNetwork) : Prop :=
  net.nodes.map Prod.fst = net0.nodes.map Prod.fst ∧
  net.links.map Prod.fst = net0.links.map Prod.fst ∧
  (∀ n, net.get_node_cpu_available n = net0.get_node_cpu_available n - npAmt np n ∧
    net.get_node_cpu_used n = net0.get_node_cpu_used n + npAmt np n) ∧
  (∀ k, lAvailK net k = lAvailK net0 k - lpAmt lp k ∧
    lUsedK net k = lUsedK net0 k + lpAmt lp k) ∧
  (np.map Prod.fst).Nodup ∧
  (∀ e ∈ np, 0 < e.2 ∧ (aget net0.nodes e.1).isSome = true) ∧
  (∀ e ∈ lp, 0 < e.2 ∧ (aget net0.links e.1).isSome = true) ∧
  (match tch with
    | false =>
      ((net.sliceAllocations.map Prod.fst).count sid = 0) ∧ np = [] ∧ lp = 0
    | true =>
      ((net.sliceAllocations.map Prod.fst).count sid = 1) ∧
        ∃ la, aget net.sliceAllocations sid = some ⟨np, la⟩ ∧ LedgerLinksRep la lp)

/-- The pending elements one allocate_path_resources call adds: one per
consecutive pair, all with the same demand. -/
def pathItems (d : ℚ) (done : List (String × String)) :
    Multiset ((String × String) × ℚ) :=
  (done.map fun p => (linkId p.1 p.2, d) : List ((String × String) × ℚ))

/-- Every link key of the request is canonical (sorted), as add_slice_link
guarantees via _get_link_id. -/
def LinksCanonical (req : SliceRequest) : Prop :=
  ∀ kk ∈ req.links.map Prod.fst, linkId kk.1 kk.2 = kk

instance (req : SliceRequest) : Decidable (LinksCanonical req) := by
  unfold LinksCanonical; infer_instance

/-!
Concrete fixtures for witnesses and counterexamples.
-/

/-- A single node with capacity 10. -/
def netSingle : PhysicalNetwork :=
  PhysicalNetwork.empty.add_physical_node "a" 10 (0, 0)

/-- Triangle network: a-b and b-c wide (bandwidth 10), a-c narrow
(bandwidth 1); the 1-hop a-c shortest path is bandwidth-infeasible for a
demand of 2 while the loopless 2-hop a-b-c path is feasible. -/
def netTri : PhysicalNetwork :=
  ((((PhysicalNetwork.empty.add_physical_node "a" 10 (0, 0)).add_physical_node
      "b" 10 (1, 0)).add_physical_node "c" 10 (2, 0)).add_physical_link "a" "b"
      10).add_physical_link "a" "c" 1 |>.add_physical_link "b" "c" 10

/-- Path network a - b - c, cpu 10 each, bandwidth 10 per link
(concrete scenario 1 of the spec). -/
def netPath3 : PhysicalNetwork :=
  ((((PhysicalNetwork.empty.add_physical_node "a" 10 (0, 0)).add_physical_node
      "b" 10 (1, 0)).add_physical_node "c" 10 (2, 0)).add_physical_link "a" "b"
      10).add_physical_link "b" "c" 10

/-- A membership-checked loopless path with a bottleneck bandwidth bound. -/
def isFeasiblePath (net : PhysicalNetwork) (s t : String) (minBw : ℚ)
    (p : List String) : Bool :=
  decide (p.head? = some s) && decide (p.getLast? = some t) &&
    (PhysicalNetwork.pathPairs p).all (fun q => net.hasLink q.1 q.2) &&
    decide p.Nodup && bwGE (calculate_path_bandwidth net p) minBw

/-- Default algorithm parameters (alpha = beta = 0.5, k = 3, epsilon = 1e-5),
with the RT-CSP basic strategy. -/
def defaultParams : AlgParams :=
  ⟨1/2, 1/2, 3, 1/100000, false⟩

/-- A one-node slice request with cpu demand 5 and no location constraint
beyond a generous deviation bound. -/
def reqOne : SliceRequest :=
  (mkSliceRequest "s1" 10 50).add_slice_node "x" 5 (0, 0) 100

/-- Two-node slice, one link of demand 15 — infeasible on netPath3 whose links
carry 10 (concrete scenario 2: node phase succeeds, link phase must fail). -/
def reqBigLink : SliceRequest :=
  (((mkSliceRequest "s2" 0 10).add_slice_node "x" 5 (0, 0) 100).add_slice_node
      "y" 5 (2, 0) 100).add_slice_link "x" "y" 15

/-- Two-node slice each demanding cpu 6 — infeasible on netSingle
(concrete scenario 3: one-to-one constraint). -/
def reqTwoBig : SliceRequest :=
  ((mkSliceRequest "s3" 0 10).add_slice_node "x" 6 (0, 0) 100).add_slice_node
    "y" 6 (0, 0) 100

/-- A simulator state with slice s1 active, obtained by processing its
arrival on the single-node network. -/
def simActive : SimState :=
  process_arrival defaultParams (initSimState netSingle) reqOne

/-!
Association-list lemmas.
-/

theorem aget_mem {α β : Type} [DecidableEq α] {l : List (α × β)} {k : α} {v : β}
    (h : aget l k = some v) : (k, v) ∈ l := by
  induction l with
  | nil => simp [aget] at h
  | cons p rest ih =>
    obtain ⟨k', v'⟩ := p
    by_cases hk : k' = k
    · subst hk
      simp [aget] at h
      simp [h]
    · simp only [aget, if_neg hk] at h
      exact List.mem_cons_of_mem _ (ih h)

theorem aget_eq_none_iff {α β : Type} [DecidableEq α] {l : List (α × β)} {k : α} :
    aget l k = none ↔ k ∉ l.map Prod.fst := by
  induction l with
  | nil => simp [aget]
  | cons p rest ih =>
    obtain ⟨k', v'⟩ := p
    by_cases hk : k' = k
    · subst hk; simp [aget]
    · simp [aget, if_neg hk, ih, Ne.symm hk]

theorem aget_isSome_iff {α β : Type} [DecidableEq α] {l : List (α × β)} {k : α} :
    (aget l k).isSome = true ↔ k ∈ l.map Prod.fst := by
  rcases h : aget l k with _ | v
  · simpa [h] using (aget_eq_none_iff.mp h)
  · simp only [Option.isSome_some, true_iff]
    exact List.mem_map_of_mem Prod.fst (aget_mem h)

theorem mem_amod {α β : Type} [DecidableEq α] {l : List (α × β)} {k : α}
    {f : β → β} {q : α × β} (h : q ∈ amod l k f) :
    q ∈ l ∨ ∃ v, aget l k = some v ∧ q = (k, f v) := by
  induction l with
  | nil => simp [amod] at h
  | cons p rest ih =>
    obtain ⟨k', v'⟩ := p
    by_cases hk : k' = k
    · subst hk
      simp only [amod, if_pos rfl] at h
      rcases List.mem_cons.mp h with h1 | h1
      · exact Or.inr ⟨v', by simp [aget], h1⟩
      · exact Or.inl (List.mem_cons_of_mem _ h1)
    · simp only [amod, if_neg hk] at h
      rcases List.mem_cons.mp h with h1 | h1
      · exact Or.inl (h1 ▸ List.mem_cons_self _ _)
      · rcases ih h1 with h2 | ⟨v, hv1, hv2⟩
        · exact Or.inl (List.mem_cons_of_mem _ h2)
        · exact Or.inr ⟨v, by simpa [aget, if_neg hk] using hv1, hv2⟩

theorem aget_amod_self {α β : Type} [DecidableEq α] (l : List (α × β)) (k : α)
    (f : β → β) : aget (amod l k f) k = (aget l k).map f := by
  induction l with
  | nil => simp [amod, aget]
  | cons p rest ih =>
    obtain ⟨k', v'⟩ := p
    by_cases hk : k' = k
    · subst hk; simp [amod, aget]
    · simp [amod, aget, if_neg hk, ih]

theorem aget_amod_ne {α β : Type} [DecidableEq α] (l : List (α × β)) (k : α)
    (f : β → β) {k' : α} (h : k' ≠ k) : aget (amod l k f) k' = aget l k' := by
  induction l with
  | nil => simp [amod]
  | cons p rest ih =>
    obtain ⟨k2, v2⟩ := p
    by_cases hk : k2 = k
    · subst hk
      simp [amod, aget, if_neg (Ne.symm h)]
    · by_cases hk2 : k2 = k'
      · subst hk2; simp [amod, if_neg hk, aget]
      · simp [amod, if_neg hk, aget, if_neg hk2, ih]

theorem amod_map_fst {α β : Type} [DecidableEq α] (l : List (α × β)) (k : α)
    (f : β → β) : (amod l k f).map Prod.fst = l.map Prod.fst := by
  induction l with
  | nil => rfl
  | cons p rest ih =>
    obtain ⟨k', v'⟩ := p
    by_cases hk : k' = k
    · subst hk; simp [amod]
    · simp [amod, if_neg hk, ih]

theorem aget_append {α β : Type} [DecidableEq α] (l l2 : List (α × β)) (k : α) :
    aget (l ++ l2) k = ((aget l k).rec (aget l2 k) fun v => some v : Option β) := by
  induction l with
  | nil => simp [aget]
  | cons p rest ih =>
    obtain ⟨k', v'⟩ := p
    by_cases hk : k' = k
    · subst hk; simp [aget]
    · simpa [aget, if_neg hk] using ih

theorem aget_append_of_none {α β : Type} [DecidableEq α] {l : List (α × β)}
    (l2 : List (α × β)) {k : α} (h : aget l k = none) :
    aget (l ++ l2) k = aget l2 k := by
  induction l with
  | nil => simp
  | cons p rest ih =>
    obtain ⟨k', v'⟩ := p
    by_cases hk : k' = k
    · subst hk; simp [aget] at h
    · simp only [aget, if_neg hk] at h ⊢
      exact ih h

theorem aget_append_of_some {α β : Type} [DecidableEq α] {l : List (α × β)}
    (l2 : List (α × β)) {k : α} {v : β} (h : aget l k = some v) :
    aget (l ++ l2) k = some v := by
  induction l with
  | nil => simp [aget] at h
  | cons p rest ih =>
    obtain ⟨k', v'⟩ := p
    by_cases hk : k' = k
    · subst hk; simp [aget] at h ⊢; exact h
    · simp only [aget, if_neg hk] at h ⊢
      exact ih h

theorem aget_aset_self {α β : Type} [DecidableEq α] (l : List (α × β)) (k : α)
    (v : β) : aget (aset l k v) k = some v := by
  induction l with
  | nil => simp [aset, aget]
  | cons p rest ih =>
    obtain ⟨k', v'⟩ := p
    by_cases hk : k' = k
    · subst hk; simp [aset, aget]
    · simp [aset, if_neg hk, aget, if_neg hk, ih]

theorem aget_aset_ne {α β : Type} [DecidableEq α] (l : List (α × β)) (k : α)
    (v : β) {k' : α} (h : k' ≠ k) : aget (aset l k v) k' = aget l k' := by
  induction l with
  | nil => simp [aset, aget, if_neg (Ne.symm h)]
  | cons p rest ih =>
    obtain ⟨k2, v2⟩ := p
    by_cases hk : k2 = k
    · subst hk
      simp [aset, aget, if_neg (Ne.symm h)]
    · by_cases hk2 : k2 = k'
      · subst hk2; simp [aset, if_neg hk, aget]
      · simp [aset, if_neg hk, aget, if_neg hk2, ih]

theorem aset_of_not_mem {α β : Type} [DecidableEq α] {l : List (α × β)} {k : α}
    (v : β) (h : k ∉ l.map Prod.fst) : aset l k v = l ++ [(k, v)] := by
  induction l with
  | nil => rfl
  | cons p rest ih =>
    obtain ⟨k', v'⟩ := p
    simp only [List.map_cons, List.mem_cons] at h
    push_neg at h
    simp [aset, if_neg (Ne.symm h.1), ih h.2]

theorem aget_adel_ne {α β : Type} [DecidableEq α] (l : List (α × β)) (k : α)
    {k' : α} (h : k' ≠ k) : aget (adel l k) k' = aget l k' := by
  induction l with
  | nil => simp [adel]
  | cons p rest ih =>
    obtain ⟨k2, v2⟩ := p
    by_cases hk : k2 = k
    · subst hk
      simp [adel, aget, if_neg (Ne.symm h)]
    · by_cases hk2 : k2 = k'
      · subst hk2; simp [adel, if_neg hk, aget]
      · simp [adel, if_neg hk, aget, if_neg hk2, ih]

theorem aget_adel_self {α β : Type} [DecidableEq α] {l : List (α × β)} {k : α}
    (h : (l.map Prod.fst).count k ≤ 1) : aget (adel l k) k = none := by
  induction l with
  | nil => simp [adel, aget]
  | cons p rest ih =>
    obtain ⟨k', v'⟩ := p
    by_cases hk : k' = k
    · subst hk
      simp only [List.map_cons, List.count_cons_self] at h
      have h0 : (rest.map Prod.fst).count k' = 0 := by omega
      simp only [adel, if_pos rfl]
      exact aget_eq_none_iff.mpr (by simpa [List.count_eq_zero] using h0)
    · simp only [List.map_cons, List.count_cons_of_ne (Ne.symm hk)] at h
      simp [adel, if_neg hk, aget, if_neg hk, ih h]

theorem adel_map_fst_count {α β : Type} [DecidableEq α] (l : List (α × β)) (k : α) :
    ((adel l k).map Prod.fst).count k = (l.map Prod.fst).count k - 1 := by
  induction l with
  | nil => simp [adel]
  | cons p rest ih =>
    obtain ⟨k', v'⟩ := p
    by_cases hk : k' = k
    · subst hk; simp [adel]
    · simp [adel, if_neg hk, List.count_cons_of_ne (Ne.symm hk), ih]

/-!
Structure of the four allocation operations: which component each touches.
-/

namespace PhysicalNetwork

theorem ledgerEnsure_nodes (net : PhysicalNetwork) (s : String) :
    (net.ledgerEnsure s).nodes = net.nodes := by
  unfold ledgerEnsure; split <;> rfl

theorem ledgerEnsure_links (net : PhysicalNetwork) (s : String) :
    (net.ledgerEnsure s).links = net.links := by
  unfold ledgerEnsure; split <;> rfl

theorem allocate_node_resources_nodes (net : PhysicalNetwork) (n : String) (d : ℚ)
    (s : String) :
    ((net.allocate_node_resources n d s).2).nodes =
      if net.get_node_cpu_available n < d then net.nodes
      else
        amod net.nodes n fun p =>
          { p with cpu_available := net.get_node_cpu_available n - d,
                   cpu_used := net.get_node_cpu_used n + d } := by
  unfold allocate_node_resources
  dsimp only
  split <;> simp_all [ledgerEnsure_nodes, updNode]

theorem allocate_node_resources_links (net : PhysicalNetwork) (n : String) (d : ℚ)
    (s : String) : ((net.allocate_node_resources n d s).2).links = net.links := by
  unfold allocate_node_resources
  dsimp only
  split <;> simp [ledgerEnsure_links, updNode]

theorem deallocate_node_resources_nodes (net : PhysicalNetwork) (n : String) (a : ℚ)
    (s : String) :
    (net.deallocate_node_resources n a s).nodes =
      amod net.nodes n fun p =>
        { p with cpu_available := net.get_node_cpu_available n + a,
                 cpu_used := max 0 (net.get_node_cpu_used n - a) } := by
  unfold deallocate_node_resources
  dsimp only [updNode]

theorem deallocate_node_resources_links (net : PhysicalNetwork) (n : String) (a : ℚ)
    (s : String) : (net.deallocate_node_resources n a s).links = net.links := rfl

theorem allocate_link_resources_links (net : PhysicalNetwork) (u v : String) (d : ℚ)
    (s : String) :
    ((net.allocate_link_resources u v d s).2).links =
      if net.get_link_bandwidth_available u v < d then net.links
      else
        amod net.links (linkId u v) fun p =>
          { p with bandwidth_available := net.get_link_bandwidth_available u v - d,
                   bandwidth_used := net.get_link_bandwidth_used u v + d } := by
  unfold allocate_link_resources
  dsimp only
  split <;> simp_all [ledgerEnsure_links, updLink]

theorem allocate_link_resources_nodes (net : PhysicalNetwork) (u v : String) (d : ℚ)
    (s : String) : ((net.allocate_link_resources u v d s).2).nodes = net.nodes := by
  unfold allocate_link_resources
  dsimp only
  split <;> simp [ledgerEnsure_nodes, updLink]

theorem deallocate_link_resources_links (net : PhysicalNetwork) (u v : String) (a : ℚ)
    (s : String) :
    (net.deallocate_link_resources u v a s).links =
      amod net.links (linkId u v) fun p =>
        { p with bandwidth_available := net.get_link_bandwidth_available u v + a,
                 bandwidth_used := max 0 (net.get_link_bandwidth_used u v - a) } := by
  unfold deallocate_link_resources
  dsimp only [updLink]

theorem deallocate_link_resources_nodes (net : PhysicalNetwork) (u v : String) (a : ℚ)
    (s : String) : (net.deallocate_link_resources u v a s).nodes = net.nodes := rfl

end PhysicalNetwork

/-!
The resource-conservation invariant (claim C1).
-/

/-- One public operation preserves the counter invariant, provided its amount
is nonnegative and, for a deallocation, no more than the currently-used
amount is released. -/
theorem countersOK_applyOp (net : PhysicalNetwork) (op : ResOp)
    (h : CountersOK net) (ha : 0 ≤ op.amount)
    (hs : safeHead net op = true) :
    CountersOK (applyOp net op) := by
  obtain ⟨hN, hL⟩ := h
  cases op with
  | allocNode n a s =>
    constructor
    · intro q hq
      rw [applyOp, PhysicalNetwork.allocate_node_resources_nodes] at hq
      by_cases hguard : net.get_node_cpu_available n < a
      · rw [if_pos hguard] at hq; exact hN q hq
      · rw [if_neg hguard] at hq
        rcases mem_amod hq with hold | ⟨v, hv, rfl⟩
        · exact hN q hold
        · have hcons := hN _ (aget_mem hv)
          have havail : net.get_node_cpu_available n = v.cpu_available := by
            simp [PhysicalNetwork.get_node_cpu_available, PhysicalNetwork.getNode, hv]
          have hused : net.get_node_cpu_used n = v.cpu_used := by
            simp [PhysicalNetwork.get_node_cpu_used, PhysicalNetwork.getNode, hv]
          rw [havail] at hguard
          dsimp at hcons ⊢
          rw [havail, hused]
          constructor
          · linarith [hcons.1]
          · linarith [not_lt.mp hguard]
    · intro e he
      rw [applyOp, PhysicalNetwork.allocate_node_resources_links] at he
      exact hL e he
  | deallocNode n a s =>
    constructor
    · intro q hq
      rw [applyOp, PhysicalNetwork.deallocate_node_resources_nodes] at hq
      rcases mem_amod hq with hold | ⟨v, hv, rfl⟩
      · exact hN q hold
      · have hcons := hN _ (aget_mem hv)
        have havail : net.get_node_cpu_available n = v.cpu_available := by
          simp [PhysicalNetwork.get_node_cpu_available, PhysicalNetwork.getNode, hv]
        have husedv : net.get_node_cpu_used n = v.cpu_used := by
          simp [PhysicalNetwork.get_node_cpu_used, PhysicalNetwork.getNode, hv]
        simp only [safeHead, decide_eq_true_eq] at hs
        rw [husedv] at hs
        dsimp at hcons ⊢
        rw [havail, husedv]
        have hmax : max 0 (v.cpu_used - a) = v.cpu_used - a :=
          max_eq_right (by linarith)
        rw [hmax]
        dsimp [ResOp.amount] at ha
        constructor
        · linarith [hcons.1]
        · linarith [hcons.2]
    · intro e he
      rw [applyOp, PhysicalNetwork.deallocate_node_resources_links] at he
      exact hL e he
  | allocLink u v a s =>
    constructor
    · intro q hq
      rw [applyOp, PhysicalNetwork.allocate_link_resources_nodes] at hq
      exact hN q hq
    · intro e he
      rw [applyOp, PhysicalNetwork.allocate_link_resources_links] at he
      by_cases hguard : net.get_link_bandwidth_available u v < a
      · rw [if_pos hguard] at he; exact hL e he
      · rw [if_neg hguard] at he
        rcases mem_amod he with hold | ⟨w, hw, rfl⟩
        · exact hL e hold
        · have hcons := hL _ (aget_mem hw)
          have havail : net.get_link_bandwidth_available u v = w.bandwidth_available := by
            simp [PhysicalNetwork.get_link_bandwidth_available, PhysicalNetwork.getLink, hw]
          have hused : net.get_link_bandwidth_used u v = w.bandwidth_used := by
            simp [PhysicalNetwork.get_link_bandwidth_used, PhysicalNetwork.getLink, hw]
          rw [havail] at hguard
          dsimp at hcons ⊢
          rw [havail, hused]
          constructor
          · linarith [hcons.1]
          · linarith [not_lt.mp hguard]
  | deallocLink u v a s =>
    constructor
    · intro q hq
      rw [applyOp, PhysicalNetwork.deallocate_link_resources_nodes] at hq
      exact hN q hq
    · intro e he
      rw [applyOp, PhysicalNetwork.deallocate_link_resources_links] at he
      rcases mem_amod he with hold | ⟨w, hw, rfl⟩
      · exact hL e hold
      · have hcons := hL _ (aget_mem hw)
        have havail : net.get_link_bandwidth_available u v = w.bandwidth_available := by
          simp [PhysicalNetwork.get_link_bandwidth_available, PhysicalNetwork.getLink, hw]
        have husedw : net.get_link_bandwidth_used u v = w.bandwidth_used := by
          simp [PhysicalNetwork.get_link_bandwidth_used, PhysicalNetwork.getLink, hw]
        simp only [safeHead, decide_eq_true_eq] at hs
        rw [husedw] at hs
        dsimp at hcons ⊢
        rw [havail, husedw]
        have hmax : max 0 (w.bandwidth_used - a) = w.bandwidth_used - a :=
          max_eq_right (by linarith)
        rw [hmax]
        dsimp [ResOp.amount] at ha
        constructor
        · linarith [hcons.1]
        · linarith [hcons.2]

/-- C1 (amended): for every sequence of allocate / deallocate calls on a
well-formed network in which every amount is nonnegative and no deallocation
releases more than the currently-used amount of its resource, the counters
satisfy available + used = initial and available ≥ 0 at every point of the
sequence. -/
theorem resource_conservation_of_safe_ops (net : PhysicalNetwork) (ops : List ResOp)
    (h0 : CountersOK net) (hamt : ∀ op ∈ ops, 0 ≤ op.amount)
    (hsafe : safeDealloc net ops = true) :
    ∀ n : ℕ, CountersOK (applyOps net (ops.take n)) := by
  induction ops generalizing net with
  | nil => intro n; simpa [applyOps] using h0
  | cons op rest ih =>
    simp only [safeDealloc, Bool.and_eq_true] at hsafe
    intro n
    cases n with
    | zero => simpa [applyOps] using h0
    | succ m =>
      rw [List.take_succ_cons,
        show applyOps net (op :: rest.take m) = applyOps (applyOp net op) (rest.take m) from rfl]
      exact ih (applyOp net op)
        (countersOK_applyOp net op h0 (hamt op (List.mem_cons_self op rest)) hsafe.1)
        (fun o ho => hamt o (List.mem_cons_of_mem _ ho)) hsafe.2 m

/-- C1 counterexample: the claim as stated fails — on a fresh single-node
network of capacity 10, one deallocate_node_resources call for amount 5
leaves available = 15 and used = 0, so available + used is no longer the
initial capacity. -/
theorem resource_conservation_counterexample :
    CountersOK netSingle ∧
      ¬ CountersOK (applyOps netSingle [ResOp.deallocNode "a" 5 "s"]) := by
  decide

/-- Witness: the amended theorem applied at a concrete safe sequence. -/
theorem resource_conservation_witness :
    CountersOK (applyOps netSingle
      ([ResOp.allocNode "a" 4 "s", ResOp.deallocNode "a" 4 "s"].take 2)) :=
  resource_conservation_of_safe_ops netSingle
    [ResOp.allocNode "a" 4 "s", ResOp.deallocNode "a" 4 "s"]
    (by decide) (by decide) (by decide) 2

/-!
Boundary semantics of allocation (claim C10).
-/

theorem get_node_cpu_available_after_alloc (net : PhysicalNetwork) (n : String)
    (d : ℚ) (s : String) (hg : ¬ net.get_node_cpu_available n < d)
    (hn : net.hasNode n = true) :
    ((net.allocate_node_resources n d s).2).get_node_cpu_available n =
      net.get_node_cpu_available n - d := by
  rcases Option.isSome_iff_exists.mp hn with ⟨v, hv⟩
  conv_lhs => rw [PhysicalNetwork.get_node_cpu_available, PhysicalNetwork.getNode]
  rw [PhysicalNetwork.allocate_node_resources_nodes, if_neg hg, aget_amod_self]
  rw [show aget net.nodes n = some v from hv]
  rfl

theorem get_link_bandwidth_available_after_alloc (net : PhysicalNetwork)
    (u v : String) (e : ℚ) (s : String)
    (hg : ¬ net.get_link_bandwidth_available u v < e) (hl : net.hasLink u v = true) :
    ((net.allocate_link_resources u v e s).2).get_link_bandwidth_available u v =
      net.get_link_bandwidth_available u v - e := by
  rcases Option.isSome_iff_exists.mp hl with ⟨w, hw⟩
  conv_lhs => rw [PhysicalNetwork.get_link_bandwidth_available, PhysicalNetwork.getLink]
  rw [PhysicalNetwork.allocate_link_resources_links, if_neg hg, aget_amod_self]
  rw [show aget net.links (linkId u v) = some w from hw]
  rfl

theorem allocate_node_resources_fst (net : PhysicalNetwork) (n : String) (d : ℚ)
    (s : String) :
    (net.allocate_node_resources n d s).1 = !decide (net.get_node_cpu_available n < d) := by
  unfold PhysicalNetwork.allocate_node_resources
  dsimp only
  split <;> simp_all

theorem allocate_link_resources_fst (net : PhysicalNetwork) (u v : String) (e : ℚ)
    (s : String) :
    (net.allocate_link_resources u v e s).1 =
      !decide (net.get_link_bandwidth_available u v < e) := by
  unfold PhysicalNetwork.allocate_link_resources
  dsimp only
  split <;> simp_all

/-- C10: allocation succeeds at the exact boundary.  allocate_node_resources
(and likewise allocate_link_resources) returns false exactly when the demand
strictly exceeds the available amount; when the demand equals the available
amount it succeeds and leaves available at exactly zero. -/
theorem allocation_boundary_semantics (net : PhysicalNetwork) (n u v s : String)
    (d e : ℚ) (hn : net.hasNode n = true) (hl : net.hasLink u v = true) :
    ((net.allocate_node_resources n d s).1 = false ↔
      net.get_node_cpu_available n < d) ∧
    (d = net.get_node_cpu_available n →
      (net.allocate_node_resources n d s).1 = true ∧
      ((net.allocate_node_resources n d s).2).get_node_cpu_available n = 0) ∧
    ((net.allocate_link_resources u v e s).1 = false ↔
      net.get_link_bandwidth_available u v < e) ∧
    (e = net.get_link_bandwidth_available u v →
      (net.allocate_link_resources u v e s).1 = true ∧
      ((net.allocate_link_resources u v e s).2).get_link_bandwidth_available u v = 0) := by
  refine ⟨?_, ?_, ?_, ?_⟩
  · rw [allocate_node_resources_fst]; simp
  · intro hd
    have hg : ¬ net.get_node_cpu_available n < d := by rw [hd]; exact lt_irrefl _
    refine ⟨by rw [allocate_node_resources_fst]; simp [hg], ?_⟩
    rw [get_node_cpu_available_after_alloc net n d s hg hn, hd, sub_self]
  · rw [allocate_link_resources_fst]; simp
  · intro he
    have hg : ¬ net.get_link_bandwidth_available u v < e := by rw [he]; exact lt_irrefl _
    refine ⟨by rw [allocate_link_resources_fst]; simp [hg], ?_⟩
    rw [get_link_bandwidth_available_after_alloc net u v e s hg hl, he, sub_self]

/-- Witness for C10 at a concrete network, demand exactly the available 10. -/
theorem allocation_boundary_semantics_witness :
    netPath3.hasNode "a" = true ∧ netPath3.hasLink "a" "b" = true ∧
    (((netPath3.allocate_node_resources "a" 10 "s").1 = false ↔
        netPath3.get_node_cpu_available "a" < 10) ∧
      (10 = netPath3.get_node_cpu_available "a" →
        (netPath3.allocate_node_resources "a" 10 "s").1 = true ∧
        ((netPath3.allocate_node_resources "a" 10 "s").2).get_node_cpu_available "a" = 0) ∧
      ((netPath3.allocate_link_resources "a" "b" 10 "s").1 = false ↔
        netPath3.get_link_bandwidth_available "a" "b" < 10) ∧
      (10 = netPath3.get_link_bandwidth_available "a" "b" →
        (netPath3.allocate_link_resources "a" "b" 10 "s").1 = true ∧
        ((netPath3.allocate_link_resources "a" "b" 10 "s").2).get_link_bandwidth_available
          "a" "b" = 0)) :=
  ⟨by decide, by decide,
    allocation_boundary_semantics netPath3 "a" "a" "b" "s" 10 10 (by decide) (by decide)⟩

/-!
Missing-entity accessor behavior (claim C5).
-/

/-- C5: querying an attribute of a node absent from the graph raises
(networkx NodeView KeyError, modelled as .error), contradicting the claimed
always-default behavior, while the link accessor and both shortest-path
queries do return their documented defaults. -/
theorem missing_node_attribute_raises :
    getNodeAttributeE netSingle "zz" NodeAttr.cpuAvailableAttr = .error () ∧
    getLinkAttributeE netSingle "zz" "ww" LinkAttr.bwAvailableAttr = none ∧
    netSingle.shortest_path "zz" "ww" = [] ∧
    netSingle.shortest_path_length "zz" "ww" = none := by
  decide

/-!
Determinism of the simulation (claim C8).
-/

/-- C8: two runs with identical physical network, identical ordered request
list, identical algorithm parameters and the same time bound produce
identical per-slice statuses (hence identical acceptance/rejection
decisions) and identical results objects.  The embedding is faithful here
because every source of order in the Python loop is deterministic: heapq
extraction, insertion-ordered dicts, and stable sorts. -/
theorem simulation_deterministic (p1 p2 : AlgParams) (net1 net2 : PhysicalNetwork)
    (reqs1 reqs2 : List SliceRequest) (mt1 mt2 : Option ℚ)
    (hp : p1 = p2) (hn : net1 = net2) (hr : reqs1 = reqs2) (hm : mt1 = mt2) :
    (run_simulation p1 net1 reqs1 mt1).statuses =
      (run_simulation p2 net2 reqs2 mt2).statuses ∧
    (run_simulation p1 net1 reqs1 mt1).get_results =
      (run_simulation p2 net2 reqs2 mt2).get_results := by
  subst hp; subst hn; subst hr; subst hm
  exact ⟨rfl, rfl⟩

/-!
Departure scheduling and processing (claim C7).
-/

/-- C7: a slice's departure_time is exactly arrival_time + lifetime; an
accepted arrival schedules a departure event at exactly that time;
processing a departure of an active slice releases its resources via
deallocate_slice, marks it completed and removes it from the active table;
a departure of a slice not in the active table leaves the network, the
active table and the statuses untouched. -/
theorem departure_event_semantics (p : AlgParams) (s : SimState) (req : SliceRequest)
    (sid : String) (a l : ℚ) :
    (mkSliceRequest sid a l).departure_time = a + l ∧
    ((provision_slice p req s.net s.cache).1.success = true →
      (process_arrival p s req).event_queue =
        s.event_queue ++ [⟨req.departure_time, .departure, req⟩]) ∧
    (aget s.active_slices req.slice_id = none →
      (process_departure s req).net = s.net ∧
      (process_departure s req).active_slices = s.active_slices ∧
      (process_departure s req).statuses = s.statuses) ∧
    (∀ pr, aget s.active_slices req.slice_id = some pr →
      (process_departure s req).net = s.net.deallocate_slice req.slice_id ∧
      aget (process_departure s req).statuses req.slice_id = some .completed ∧
      (process_departure s req).active_slices = adel s.active_slices req.slice_id) := by
  refine ⟨rfl, ?_, ?_, ?_⟩
  · intro h
    unfold process_arrival
    simp only [h, if_pos]
  · intro h
    unfold process_departure
    simp only [h]
    exact ⟨trivial, trivial, trivial⟩
  · intro pr h
    unfold process_departure
    simp only [h]
    refine ⟨trivial, ?_, trivial⟩
    exact aget_aset_self _ _ _

/-- Witness for C7: the accepted slice s1 (arrival 10, lifetime 50) gets its
departure scheduled at exactly time 60, and processing that departure on the
active state releases the resources, completes the slice, and drops it from
the table. -/
theorem departure_event_semantics_witness :
    (provision_slice defaultParams reqOne (initSimState netSingle).net
        (initSimState netSingle).cache).1.success = true ∧
    reqOne.departure_time = 60 ∧
    (process_arrival defaultParams (initSimState netSingle) reqOne).event_queue =
      (initSimState netSingle).event_queue ++ [⟨reqOne.departure_time, .departure, reqOne⟩] ∧
    aget simActive.active_slices reqOne.slice_id =
      some (reqOne, ⟨true, [("x", "a")], [], none⟩) ∧
    ((process_departure simActive reqOne).net =
        simActive.net.deallocate_slice reqOne.slice_id ∧
      aget (process_departure simActive reqOne).statuses reqOne.slice_id =
        some .completed ∧
      (process_departure simActive reqOne).active_slices =
        adel simActive.active_slices reqOne.slice_id) :=
  ⟨by decide, by decide,
    (departure_event_semantics defaultParams (initSimState netSingle) reqOne "w" 10
        50).2.1 (by decide),
    by decide,
    (departure_event_semantics defaultParams simActive reqOne "w" 10 50).2.2.2
      (reqOne, ⟨true, [("x", "a")], [], none⟩) (by decide)⟩

/-!
Emptiness characterization of yen_k_shortest_paths (claim C4).
-/

theorem yenLoop_nil (net : PhysicalNetwork) (target : String) (minBw : ℚ)
    (n : ℕ) (B : List YPath) : yenLoop net target minBw n [] B = [] := by
  cases n <;> simp [yenLoop]

theorem yenLoop_ne_nil (net : PhysicalNetwork) (target : String) (minBw : ℚ)
    (n : ℕ) (A B : List YPath) (hA : A ≠ []) :
    yenLoop net target minBw n A B ≠ [] := by
  induction n generalizing A B with
  | zero => simpa [yenLoop] using hA
  | succ m ih =>
    rw [yenLoop]
    rcases hlast : A.getLast? with _ | prev
    · exact absurd (List.getLast?_eq_none_iff.mp hlast) hA
    · dsimp only
      rcases hsort : sortByCost ((List.range (prev.nodes.length - 1)).foldl
          (yenSpurFold net target minBw A prev.nodes) B) with _ | ⟨best, restB⟩
      · exact hA
      · exact ih (A ++ [best]) restB (by simp)

/-- C4 counterexample: on the triangle network, a is distinct from c, both
exist, and the loopless path a-b-c meets the bandwidth floor 2, yet the
returned list is empty — the 1-hop shortest path a-c has bandwidth 1 < 2 and
its rejection empties the seed list before any deviation is explored. -/
theorem yen_nonempty_counterexample :
    ("a" : String) ≠ "c" ∧ netTri.hasNode "a" = true ∧ netTri.hasNode "c" = true ∧
    isFeasiblePath netTri "a" "c" 2 ["a", "b", "c"] = true ∧
    yen_k_shortest_paths netTri "a" "c" 3 2 = [] := by
  decide

/-- C4 (amended): yen_k_shortest_paths returns [] exactly when source equals
target, or an endpoint is absent, or the shortest-path search finds no path
at all, or the found shortest path's bottleneck bandwidth is below the
minimum requirement (the seed path is bandwidth-filtered before any
deviation is generated, so an infeasible shortest path empties the result
even when longer feasible loopless paths exist). -/
theorem yen_empty_iff (net : PhysicalNetwork) (source target : String) (k : ℕ)
    (minBw : ℚ) :
    yen_k_shortest_paths net source target k minBw = [] ↔
      source = target ∨ net.hasNode source = false ∨ net.hasNode target = false ∨
      net.shortestPathExcl [] [] source target = none ∨
      ∃ p, net.shortestPathExcl [] [] source target = some p ∧
        bwGE (calculate_path_bandwidth net p) minBw = false := by
  unfold yen_k_shortest_paths
  by_cases hst : source = target
  · simp [hst]
  · rw [if_neg hst]
    by_cases hsrc : net.hasNode source
    · by_cases htgt : net.hasNode target
      · rw [if_neg (by simp [hsrc, htgt])]
        rcases hsp : net.shortestPathExcl [] [] source target with _ | firstPath
        · simp [hst, hsrc, htgt]
        · dsimp only
          by_cases hbw : bwGE (calculate_path_bandwidth net firstPath) minBw
          · rw [if_pos hbw]
            constructor
            · intro h
              exact absurd h (yenLoop_ne_nil net target minBw (k - 1) _ [] (by simp))
            · intro h
              rcases h with h | h | h | h | ⟨p, hp1, hp2⟩
              · exact absurd h hst
              · exact absurd hsrc (by simp [h])
              · exact absurd htgt (by simp [h])
              · exact absurd h (by simp)
              · rw [Option.some_inj.mp hp1] at hbw
                exact absurd hp2 (by simp [hbw])
          · rw [if_neg hbw, yenLoop_nil]
            constructor
            · intro _
              exact Or.inr (Or.inr (Or.inr (Or.inr
                ⟨firstPath, rfl, by simpa using hbw⟩)))
            · intro _
              rfl
      · rw [if_pos (by simp [htgt])]
        constructor
        · intro _
          exact Or.inr (Or.inr (Or.inl (by simpa using htgt)))
        · intro _
          rfl
    · rw [if_pos (by simp [hsrc])]
      constructor
      · intro _
        exact Or.inr (Or.inl (by simpa using hsrc))
      · intro _
        rfl

/-- Witness for C8 at a concrete one-request run. -/
theorem simulation_deterministic_witness :
    defaultParams = defaultParams ∧ netSingle = netSingle ∧
    ([reqOne] : List SliceRequest) = [reqOne] ∧ (none : Option ℚ) = none ∧
    ((run_simulation defaultParams netSingle [reqOne] none).statuses =
      (run_simulation defaultParams netSingle [reqOne] none).statuses ∧
    (run_simulation defaultParams netSingle [reqOne] none).get_results =
      (run_simulation defaultParams netSingle [reqOne] none).get_results) :=
  ⟨rfl, rfl, rfl, rfl,
    simulation_deterministic defaultParams defaultParams netSingle netSingle
      [reqOne] [reqOne] none none rfl rfl rfl rfl⟩

/-!
Ledger observations of the four operations.
-/

namespace PhysicalNetwork

theorem ledgerEnsure_sliceAllocations (net : PhysicalNetwork) (s : String) :
    (net.ledgerEnsure s).sliceAllocations =
      if (aget net.sliceAllocations s).isSome then net.sliceAllocations
      else net.sliceAllocations ++ [(s, ⟨[], []⟩)] := by
  unfold ledgerEnsure; split <;> simp_all

theorem allocate_node_resources_ledger (net : PhysicalNetwork) (n : String) (d : ℚ)
    (s : String) (hg : ¬ net.get_node_cpu_available n < d) :
    ((net.allocate_node_resources n d s).2).sliceAllocations =
      amod (if (aget net.sliceAllocations s).isSome then net.sliceAllocations
          else net.sliceAllocations ++ [(s, ⟨[], []⟩)]) s
        (fun a => { a with nodeAllocs := aset a.nodeAllocs n d }) := by
  unfold allocate_node_resources
  dsimp only
  rw [if_neg hg]
  dsimp only
  rw [show ((net.updNode n _).ledgerEnsure s).sliceAllocations =
      if (aget net.sliceAllocations s).isSome then net.sliceAllocations
      else net.sliceAllocations ++ [(s, ⟨[], []⟩)] from
    ledgerEnsure_sliceAllocations _ s]

theorem allocate_link_resources_ledger (net : PhysicalNetwork) (u v : String) (e : ℚ)
    (s : String) (hg : ¬ net.get_link_bandwidth_available u v < e) :
    ((net.allocate_link_resources u v e s).2).sliceAllocations =
      amod (if (aget net.sliceAllocations s).isSome then net.sliceAllocations
          else net.sliceAllocations ++ [(s, ⟨[], []⟩)]) s
        (fun a => { a with linkAllocs := linkAllocAdd a.linkAllocs (linkId u v) e }) := by
  unfold allocate_link_resources
  dsimp only
  rw [if_neg hg]
  dsimp only
  rw [show ((net.updLink u v _).ledgerEnsure s).sliceAllocations =
      if (aget net.sliceAllocations s).isSome then net.sliceAllocations
      else net.sliceAllocations ++ [(s, ⟨[], []⟩)] from
    ledgerEnsure_sliceAllocations _ s]

theorem deallocate_node_resources_ledger (net : PhysicalNetwork) (n : String) (a : ℚ)
    (s : String) :
    (net.deallocate_node_resources n a s).sliceAllocations =
      amod net.sliceAllocations s
        (fun al => { al with nodeAllocs := adel al.nodeAllocs n }) := rfl

theorem deallocate_link_resources_ledger (net : PhysicalNetwork) (u v : String) (a : ℚ)
    (s : String) :
    (net.deallocate_link_resources u v a s).sliceAllocations =
      amod net.sliceAllocations s
        (fun al => { al with linkAllocs := linkAllocSub al.linkAllocs (linkId u v) a }) := rfl

end PhysicalNetwork

/-!
Counter observations: how each operation moves the four getters.
-/

theorem get_node_cpu_available_of_nodes_eq {a b : PhysicalNetwork}
    (h : a.nodes = b.nodes) (m : String) :
    a.get_node_cpu_available m = b.get_node_cpu_available m := by
  unfold PhysicalNetwork.get_node_cpu_available PhysicalNetwork.getNode
  rw [h]

theorem get_node_cpu_used_of_nodes_eq {a b : PhysicalNetwork}
    (h : a.nodes = b.nodes) (m : String) :
    a.get_node_cpu_used m = b.get_node_cpu_used m := by
  unfold PhysicalNetwork.get_node_cpu_used PhysicalNetwork.getNode
  rw [h]

theorem lAvailK_of_links_eq {a b : PhysicalNetwork} (h : a.links = b.links)
    (k : String × String) : lAvailK a k = lAvailK b k := by
  unfold lAvailK; rw [h]

theorem lUsedK_of_links_eq {a b : PhysicalNetwork} (h : a.links = b.links)
    (k : String × String) : lUsedK a k = lUsedK b k := by
  unfold lUsedK; rw [h]

theorem nAvail_after_alloc_node (net : PhysicalNetwork) (n : String) (d : ℚ)
    (s : String) (hg : ¬ net.get_node_cpu_available n < d) (m : String) :
    ((net.allocate_node_resources n d s).2).get_node_cpu_available m =
      if m = n ∧ (aget net.nodes n).isSome then net.get_node_cpu_available m - d
      else net.get_node_cpu_available m := by
  unfold PhysicalNetwork.get_node_cpu_available PhysicalNetwork.getNode
  rw [PhysicalNetwork.allocate_node_resources_nodes, if_neg hg]
  by_cases hm : m = n
  · subst hm
    rw [aget_amod_self]
    rcases hv : aget net.nodes m with _ | v
    · simp [hv]
    · simp only [hv, Option.isSome_some, and_true, if_pos rfl, Option.map_map]
      unfold PhysicalNetwork.get_node_cpu_available PhysicalNetwork.getNode
      simp [hv]
  · rw [aget_amod_ne _ _ _ hm]
    simp [hm]

theorem nUsed_after_alloc_node (net : PhysicalNetwork) (n : String) (d : ℚ)
    (s : String) (hg : ¬ net.get_node_cpu_available n < d) (m : String) :
    ((net.allocate_node_resources n d s).2).get_node_cpu_used m =
      if m = n ∧ (aget net.nodes n).isSome then net.get_node_cpu_used m + d
      else net.get_node_cpu_used m := by
  unfold PhysicalNetwork.get_node_cpu_used PhysicalNetwork.getNode
  rw [PhysicalNetwork.allocate_node_resources_nodes, if_neg hg]
  by_cases hm : m = n
  · subst hm
    rw [aget_amod_self]
    rcases hv : aget net.nodes m with _ | v
    · simp [hv]
    · simp only [hv, Option.isSome_some, and_true, if_pos rfl, Option.map_map]
      unfold PhysicalNetwork.get_node_cpu_used PhysicalNetwork.getNode
      simp [hv]
  · rw [aget_amod_ne _ _ _ hm]
    simp [hm]

theorem nAvail_after_dealloc_node (net : PhysicalNetwork) (n : String) (a : ℚ)
    (s : String) (m : String) :
    (net.deallocate_node_resources n a s).get_node_cpu_available m =
      if m = n ∧ (aget net.nodes n).isSome then net.get_node_cpu_available m + a
      else net.get_node_cpu_available m := by
  unfold PhysicalNetwork.get_node_cpu_available PhysicalNetwork.getNode
  rw [PhysicalNetwork.deallocate_node_resources_nodes]
  by_cases hm : m = n
  · subst hm
    rw [aget_amod_self]
    rcases hv : aget net.nodes m with _ | v
    · simp [hv]
    · simp only [hv, Option.isSome_some, and_true, if_pos rfl, Option.map_map]
      unfold PhysicalNetwork.get_node_cpu_available PhysicalNetwork.getNode
      simp [hv]
  · rw [aget_amod_ne _ _ _ hm]
    simp [hm]

theorem nUsed_after_dealloc_node (net : PhysicalNetwork) (n : String) (a : ℚ)
    (s : String) (m : String) :
    (net.deallocate_node_resources n a s).get_node_cpu_used m =
      if m = n ∧ (aget net.nodes n).isSome
      then max 0 (net.get_node_cpu_used m - a)
      else net.get_node_cpu_used m := by
  unfold PhysicalNetwork.get_node_cpu_used PhysicalNetwork.getNode
  rw [PhysicalNetwork.deallocate_node_resources_nodes]
  by_cases hm : m = n
  · subst hm
    rw [aget_amod_self]
    rcases hv : aget net.nodes m with _ | v
    · simp [hv]
    · simp only [hv, Option.isSome_some, and_true, if_pos rfl, Option.map_map]
      unfold PhysicalNetwork.get_node_cpu_used PhysicalNetwork.getNode
      simp [hv]
  · rw [aget_amod_ne _ _ _ hm]
    simp [hm]

theorem lAvailK_after_alloc_link (net : PhysicalNetwork) (u v : String) (e : ℚ)
    (s : String) (hg : ¬ net.get_link_bandwidth_available u v < e)
    (k : String × String) :
    lAvailK ((net.allocate_link_resources u v e s).2) k =
      if k = linkId u v ∧ (aget net.links (linkId u v)).isSome
      then lAvailK net k - e else lAvailK net k := by
  unfold lAvailK
  rw [PhysicalNetwork.allocate_link_resources_links, if_neg hg]
  by_cases hk : k = linkId u v
  · subst hk
    rw [aget_amod_self]
    rcases hw : aget net.links (linkId u v) with _ | w
    · simp [hw]
    · simp only [hw, Option.isSome_some, and_true, if_pos rfl, Option.map_map]
      unfold PhysicalNetwork.get_link_bandwidth_available PhysicalNetwork.getLink
      simp [hw]
  · rw [aget_amod_ne _ _ _ hk]
    simp [hk]

theorem lUsedK_after_alloc_link (net : PhysicalNetwork) (u v : String) (e : ℚ)
    (s : String) (hg : ¬ net.get_link_bandwidth_available u v < e)
    (k : String × String) :
    lUsedK ((net.allocate_link_resources u v e s).2) k =
      if k = linkId u v ∧ (aget net.links (linkId u v)).isSome
      then lUsedK net k + e else lUsedK net k := by
  unfold lUsedK
  rw [PhysicalNetwork.allocate_link_resources_links, if_neg hg]
  by_cases hk : k = linkId u v
  · subst hk
    rw [aget_amod_self]
    rcases hw : aget net.links (linkId u v) with _ | w
    · simp [hw]
    · simp only [hw, Option.isSome_some, and_true, if_pos rfl, Option.map_map]
      unfold PhysicalNetwork.get_link_bandwidth_used PhysicalNetwork.getLink
      simp [hw]
  · rw [aget_amod_ne _ _ _ hk]
    simp [hk]

theorem lAvailK_after_dealloc_link (net : PhysicalNetwork) (u v : String) (a : ℚ)
    (s : String) (k : String × String) :
    lAvailK (net.deallocate_link_resources u v a s) k =
      if k = linkId u v ∧ (aget net.links (linkId u v)).isSome
      then lAvailK net k + a else lAvailK net k := by
  unfold lAvailK
  rw [PhysicalNetwork.deallocate_link_resources_links]
  by_cases hk : k = linkId u v
  · subst hk
    rw [aget_amod_self]
    rcases hw : aget net.links (linkId u v) with _ | w
    · simp [hw]
    · simp only [hw, Option.isSome_some, and_true, if_pos rfl, Option.map_map]
      unfold PhysicalNetwork.get_link_bandwidth_available PhysicalNetwork.getLink
      simp [hw]
  · rw [aget_amod_ne _ _ _ hk]
    simp [hk]

theorem lUsedK_after_dealloc_link (net : PhysicalNetwork) (u v : String) (a : ℚ)
    (s : String) (k : String × String) :
    lUsedK (net.deallocate_link_resources u v a s) k =
      if k = linkId u v ∧ (aget net.links (linkId u v)).isSome
      then max 0 (lUsedK net k - a) else lUsedK net k := by
  unfold lUsedK
  rw [PhysicalNetwork.deallocate_link_resources_links]
  by_cases hk : k = linkId u v
  · subst hk
    rw [aget_amod_self]
    rcases hw : aget net.links (linkId u v) with _ | w
    · simp [hw]
    · simp only [hw, Option.isSome_some, and_true, if_pos rfl, Option.map_map]
      unfold PhysicalNetwork.get_link_bandwidth_used PhysicalNetwork.getLink
      simp [hw]
  · rw [aget_amod_ne _ _ _ hk]
    simp [hk]

/-!
Pending-allocation accounting lemmas.
-/

theorem npAmt_nil (n : String) : npAmt [] n = 0 := rfl

theorem npAmt_cons (e : String × ℚ) (np : List (String × ℚ)) (m : String) :
    npAmt (e :: np) m = (if e.1 = m then e.2 else 0) + npAmt np m := by
  unfold npAmt
  rw [List.filter_cons]
  by_cases h : e.1 = m
  · simp [h]
  · simp [h]

theorem npAmt_append_single (np : List (String × ℚ)) (n : String) (d : ℚ)
    (m : String) :
    npAmt (np ++ [(n, d)]) m = npAmt np m + if m = n then d else 0 := by
  induction np with
  | nil =>
    simp only [List.nil_append, npAmt_cons, npAmt_nil]
    by_cases h : m = n
    · simp [h]
    · simp [h, Ne.symm h]
  | cons e rest ih =>
    simp only [List.cons_append, npAmt_cons, ih]
    ring

theorem npAmt_of_not_mem {np : List (String × ℚ)} {n : String}
    (h : n ∉ np.map Prod.fst) : npAmt np n = 0 := by
  induction np with
  | nil => rfl
  | cons e rest ih =>
    simp only [List.map_cons, List.mem_cons] at h
    push_neg at h
    rw [npAmt_cons, if_neg (Ne.symm h.1), ih h.2, add_zero]

theorem lpAmt_zero (k : String × String) : lpAmt 0 k = 0 := rfl

theorem lpAmt_cons (e : (String × String) × ℚ) (lp : Multiset ((String × String) × ℚ))
    (k : String × String) :
    lpAmt (e ::ₘ lp) k = (if e.1 = k then e.2 else 0) + lpAmt lp k := by
  unfold lpAmt
  rw [Multiset.filter_cons]
  by_cases h : e.1 = k
  · simp [h]
  · simp [h]

theorem lpAmt_erase {e : (String × String) × ℚ} {lp : Multiset ((String × String) × ℚ)}
    (he : e ∈ lp) (k : String × String) :
    lpAmt lp k = (if e.1 = k then e.2 else 0) + lpAmt (lp.erase e) k := by
  conv_lhs => rw [← Multiset.cons_erase he]
  exact lpAmt_cons e _ k

theorem lpAmt_nonneg {lp : Multiset ((String × String) × ℚ)}
    (h : ∀ e ∈ lp, 0 < e.2) (k : String × String) : 0 ≤ lpAmt lp k := by
  unfold lpAmt
  apply Multiset.sum_nonneg
  intro x hx
  rcases Multiset.mem_map.mp hx with ⟨e, he, rfl⟩
  exact le_of_lt (h e (Multiset.mem_of_mem_filter he))

/-!
Further association-list helpers for the ledger bookkeeping.
-/

theorem aset_map_fst_of_mem {α β : Type} [DecidableEq α] {l : List (α × β)} {k : α}
    (v : β) (h : k ∈ l.map Prod.fst) : (aset l k v).map Prod.fst = l.map Prod.fst := by
  induction l with
  | nil => simp at h
  | cons p rest ih =>
    obtain ⟨k', v'⟩ := p
    by_cases hk : k' = k
    · subst hk; simp [aset]
    · simp only [List.map_cons, List.mem_cons] at h
      rcases h with h | h
      · exact absurd h.symm hk
      · simp [aset, if_neg hk, ih h]

theorem adel_map_fst_sublist {α β : Type} [DecidableEq α] (l : List (α × β)) (k : α) :
    ((adel l k).map Prod.fst).Sublist (l.map Prod.fst) := by
  induction l with
  | nil => simp [adel]
  | cons p rest ih =>
    obtain ⟨k', v'⟩ := p
    by_cases hk : k' = k
    · subst hk
      simp only [adel, if_pos rfl, List.map_cons]
      exact (List.sublist_cons_self _ _)
    · simp only [adel, if_neg hk, List.map_cons]
      exact ih.cons₂ k'

theorem nUsed_nonneg {net : PhysicalNetwork} (h : UsedNonneg net) (n : String) :
    0 ≤ net.get_node_cpu_used n := by
  unfold PhysicalNetwork.get_node_cpu_used PhysicalNetwork.getNode
  rcases hv : aget net.nodes n with _ | v
  · simp
  · simpa using h.1 _ (aget_mem hv)

theorem lUsedK_nonneg {net : PhysicalNetwork} (h : UsedNonneg net)
    (k : String × String) : 0 ≤ lUsedK net k := by
  unfold lUsedK
  rcases hw : aget net.links k with _ | w
  · simp
  · simpa using h.2 _ (aget_mem hw)

theorem present_of_avail_pos {net : PhysicalNetwork} {n : String}
    (h : 0 < net.get_node_cpu_available n) : (aget net.nodes n).isSome = true := by
  rcases hv : aget net.nodes n with _ | v
  · exfalso
    unfold PhysicalNetwork.get_node_cpu_available PhysicalNetwork.getNode at h
    rw [hv] at h
    simp at h
  · rfl

theorem presentL_of_avail_pos {net : PhysicalNetwork} {u v : String}
    (h : 0 < net.get_link_bandwidth_available u v) :
    (aget net.links (linkId u v)).isSome = true := by
  rcases hw : aget net.links (linkId u v) with _ | w
  · exfalso
    unfold PhysicalNetwork.get_link_bandwidth_available PhysicalNetwork.getLink at h
    rw [hw] at h
    simp at h
  · rfl

theorem isSome_of_map_fst_eq {α β : Type} [DecidableEq α] {l l' : List (α × β)}
    (h : l.map Prod.fst = l'.map Prod.fst) (k : α) :
    (aget l k).isSome = (aget l' k).isSome := by
  by_cases hm : k ∈ l.map Prod.fst
  · rw [aget_isSome_iff.mpr hm, aget_isSome_iff.mpr (h ▸ hm)]
  · have hm' : k ∉ l'.map Prod.fst := h ▸ hm
    rw [Bool.eq_iff_iff]
    simp [aget_isSome_iff, hm, hm']

theorem alloc_node_fail_snd {net : PhysicalNetwork} {n : String} {d : ℚ} {s : String}
    (hg : net.get_node_cpu_available n < d) :
    (net.allocate_node_resources n d s).2 = net := by
  unfold PhysicalNetwork.allocate_node_resources
  dsimp only
  rw [if_pos hg]

theorem alloc_link_fail_snd {net : PhysicalNetwork} {u v : String} {e : ℚ} {s : String}
    (hg : net.get_link_bandwidth_available u v < e) :
    (net.allocate_link_resources u v e s).2 = net := by
  unfold PhysicalNetwork.allocate_link_resources
  dsimp only
  rw [if_pos hg]

/-!
Provisioning-attempt invariant transitions.
-/

/-- A successful node allocation for a fresh physical node extends the
pending node list and touches the ledger. -/
theorem attemptInv_alloc_node {net0 : PhysicalNetwork} {sid : String} {tch : Bool}
    {np : List (String × ℚ)} {lp : Multiset ((String × String) × ℚ)}
    {net : PhysicalNetwork} (hI : AttemptInv net0 sid tch np lp net)
    {n : String} {d : ℚ} (hd : 0 < d) (hfresh : n ∉ np.map Prod.fst)
    (hg : ¬ net.get_node_cpu_available n < d) :
    AttemptInv net0 sid true (np ++ [(n, d)]) lp
      ((net.allocate_node_resources n d sid).2) := by
  obtain ⟨hkn, hkl, hnc, hlc, hnd, hsupN, hsupL, hledger⟩ := hI
  have hpres : (aget net.nodes n).isSome = true :=
    present_of_avail_pos (lt_of_lt_of_le hd (not_lt.mp hg))
  have hpres0 : (aget net0.nodes n).isSome = true := by
    rw [← isSome_of_map_fst_eq hkn]; exact hpres
  have hnodes := PhysicalNetwork.allocate_node_resources_nodes net n d sid
  rw [if_neg hg] at hnodes
  refine ⟨?_, ?_, ?_, ?_, ?_, ?_, ?_, ?_⟩
  · rw [hnodes, amod_map_fst]; exact hkn
  · rw [PhysicalNetwork.allocate_node_resources_links]; exact hkl
  · intro m
    rw [nAvail_after_alloc_node net n d sid hg m, nUsed_after_alloc_node net n d sid hg m,
      npAmt_append_single]
    by_cases hm : m = n
    · rw [if_pos (show m = n ∧ (aget net.nodes n).isSome = true from ⟨hm, hpres⟩),
        if_pos (show m = n ∧ (aget net.nodes n).isSome = true from ⟨hm, hpres⟩),
        if_pos hm]
      constructor
      · rw [(hnc m).1]; ring
      · rw [(hnc m).2]; ring
    · rw [if_neg (show ¬(m = n ∧ (aget net.nodes n).isSome = true) from by simp [hm]),
        if_neg (show ¬(m = n ∧ (aget net.nodes n).isSome = true) from by simp [hm]),
        if_neg hm]
      simpa using hnc m
  · intro k
    have hle := PhysicalNetwork.allocate_node_resources_links net n d sid
    rw [lAvailK_of_links_eq hle, lUsedK_of_links_eq hle]
    exact hlc k
  · rw [List.map_append]
    simp only [List.map_cons, List.map_nil]
    exact List.Nodup.append hnd (List.nodup_singleton n)
      (by simpa [List.disjoint_singleton] using hfresh)
  · intro e he
    rcases List.mem_append.mp he with h1 | h1
    · exact hsupN e h1
    · rw [List.mem_singleton.mp h1]
      exact ⟨hd, hpres0⟩
  · exact hsupL
  · have hledg := PhysicalNetwork.allocate_node_resources_ledger net n d sid hg
    cases tch with
    | false =>
      obtain ⟨hcnt, hnpnil, hlpz⟩ := hledger
      subst hnpnil; subst hlpz
      have hnone : aget net.sliceAllocations sid = none :=
        aget_eq_none_iff.mpr (by simpa [List.count_eq_zero] using hcnt)
      rw [hledg, hnone]
      simp only [Option.isSome_none, Bool.false_eq_true, if_false]
      refine ⟨?_, ⟨[], ?_, ?_, ?_⟩⟩
      · rw [amod_map_fst, List.map_append, List.count_append]
        simp [hcnt]
      · rw [aget_amod_self, aget_append_of_none _ hnone]
        simp [aget, aset]
      · exact List.nodup_nil
      · intro k
        simp [aget, lpAmt_zero]
    | true =>
      obtain ⟨hcnt, la, hla, hrep⟩ := hledger
      rw [hledg, hla]
      simp only [Option.isSome_some, if_true]
      refine ⟨?_, ⟨la, ?_, hrep⟩⟩
      · rw [amod_map_fst]; exact hcnt
      · rw [aget_amod_self, hla]
        simp only [Option.map_some']
        rw [aset_of_not_mem d hfresh]

theorem npAmt_nonneg {np : List (String × ℚ)} (h : ∀ e ∈ np, 0 < e.2)
    (n : String) : 0 ≤ npAmt np n := by
  unfold npAmt
  apply List.sum_nonneg
  intro x hx
  rcases List.mem_map.mp hx with ⟨e, he, rfl⟩
  exact le_of_lt (h e (List.mem_of_mem_filter he))

theorem charListLe_total (a b : List Char) :
    charListLe a b = true ∨ charListLe b a = true := by
  induction a generalizing b with
  | nil => exact Or.inl rfl
  | cons c cs ih =>
    cases b with
    | nil => exact Or.inr rfl
    | cons d ds =>
      by_cases h1 : c.toNat < d.toNat
      · exact Or.inl (by simp [charListLe, h1])
      · by_cases h2 : d.toNat < c.toNat
        · exact Or.inr (by simp [charListLe, h2])
        · rcases ih ds with h | h
          · exact Or.inl (by simp [charListLe, h1, h2, h])
          · exact Or.inr (by simp [charListLe, h1, h2, h])

theorem linkId_idem (u v : String) :
    linkId (linkId u v).1 (linkId u v).2 = linkId u v := by
  unfold linkId strLe
  by_cases h : charListLe u.data v.data = true
  · simp [h]
  · rcases charListLe_total u.data v.data with h1 | h1
    · exact absurd h1 h
    · simp [h, h1]

theorem mappingAllocs_fst (req : SliceRequest) (m : List (String × String)) :
    (mappingAllocs req m).map Prod.fst = m.map Prod.snd := by
  unfold mappingAllocs
  rw [List.map_map]
  rfl

/-- Deallocating the head of the pending node list restores its counters
and drops its ledger node entry, preserving the attempt invariant. -/
theorem attemptInv_dealloc_node {net0 : PhysicalNetwork} {sid : String}
    {np' : List (String × ℚ)} {lp : Multiset ((String × String) × ℚ)}
    {net : PhysicalNetwork} {n : String} {d : ℚ}
    (hI : AttemptInv net0 sid true ((n, d) :: np') lp net)
    (hU0 : UsedNonneg net0) :
    AttemptInv net0 sid true np' lp (net.deallocate_node_resources n d sid) := by
  obtain ⟨hkn, hkl, hnc, hlc, hnd, hsupN, hsupL, hcnt, la, hla, hrep⟩ := hI
  have hpres0 : (aget net0.nodes n).isSome = true :=
    (hsupN (n, d) (List.mem_cons_self _ _)).2
  have hpres : (aget net.nodes n).isSome = true := by
    rw [isSome_of_map_fst_eq hkn]; exact hpres0
  refine ⟨?_, ?_, ?_, ?_, ?_, ?_, hsupL, ?_, la, ?_, hrep⟩
  · rw [PhysicalNetwork.deallocate_node_resources_nodes, amod_map_fst]; exact hkn
  · rw [PhysicalNetwork.deallocate_node_resources_links]; exact hkl
  · intro m
    rw [nAvail_after_dealloc_node net n d sid m, nUsed_after_dealloc_node net n d sid m]
    by_cases hm : m = n
    · constructor
      · rw [if_pos (show m = n ∧ (aget net.nodes n).isSome = true from ⟨hm, hpres⟩),
          (hnc m).1, npAmt_cons, if_pos hm.symm]
        ring
      · rw [if_pos (show m = n ∧ (aget net.nodes n).isSome = true from ⟨hm, hpres⟩),
          (hnc m).2, npAmt_cons, if_pos hm.symm]
        have h1 : 0 ≤ net0.get_node_cpu_used m + npAmt np' m :=
          add_nonneg (nUsed_nonneg hU0 m)
            (npAmt_nonneg (fun e he => (hsupN e (List.mem_cons_of_mem _ he)).1) m)
        rw [show net0.get_node_cpu_used m + (d + npAmt np' m) - d =
            net0.get_node_cpu_used m + npAmt np' m by ring]
        exact max_eq_right h1
    · rw [if_neg (show ¬(m = n ∧ (aget net.nodes n).isSome = true) from by simp [hm]),
        if_neg (show ¬(m = n ∧ (aget net.nodes n).isSome = true) from by simp [hm])]
      refine ⟨?_, ?_⟩
      · rw [(hnc m).1, npAmt_cons, if_neg (fun h => hm h.symm)]; ring
      · rw [(hnc m).2, npAmt_cons, if_neg (fun h => hm h.symm)]; ring
  · intro k
    have hle := PhysicalNetwork.deallocate_node_resources_links net n d sid
    rw [lAvailK_of_links_eq hle, lUsedK_of_links_eq hle]
    exact hlc k
  · have := hnd
    simp only [List.map_cons] at this
    exact this.of_cons
  · exact fun e he => hsupN e (List.mem_cons_of_mem _ he)
  · rw [PhysicalNetwork.deallocate_node_resources_ledger, amod_map_fst]; exact hcnt
  · rw [PhysicalNetwork.deallocate_node_resources_ledger, aget_amod_self, hla]
    simp [adel]

/-- Accumulating a positive amount into the ledger link dict tracks adding the
pending element. -/
theorem ledgerLinksRep_add {la : List ((String × String) × ℚ)}
    {lp : Multiset ((String × String) × ℚ)} (hrep : LedgerLinksRep la lp)
    (hpos : ∀ e ∈ lp, 0 < e.2) {key : String × String} {d : ℚ} (hd : 0 < d) :
    LedgerLinksRep (PhysicalNetwork.linkAllocAdd la key d) ((key, d) ::ₘ lp) := by
  obtain ⟨hnodup, hval⟩ := hrep
  rcases hcase : aget la key with _ | old
  · have hadd : PhysicalNetwork.linkAllocAdd la key d = la ++ [(key, d)] := by
      unfold PhysicalNetwork.linkAllocAdd; rw [hcase]
    have hz : lpAmt lp key = 0 := by
      by_contra hnz
      rw [hval key, if_neg hnz] at hcase
      exact Option.some_ne_none _ hcase
    rw [hadd]
    refine ⟨?_, ?_⟩
    · rw [List.map_append]
      refine List.Nodup.append hnodup (List.nodup_singleton _) ?_
      simp only [List.map_cons, List.map_nil, List.disjoint_singleton]
      exact aget_eq_none_iff.mp hcase
    · intro k
      rw [lpAmt_cons]
      by_cases hk : (key, d).1 = k
      · rw [if_pos hk]
        have hk' : key = k := hk
        subst hk'
        rw [aget_append_of_none _ hcase, hz, add_zero]
        simp [aget, ne_of_gt hd]
      · rw [if_neg hk, zero_add]
        have hk' : key ≠ k := hk
        rcases hv : aget la k with _ | w
        · rw [aget_append_of_none _ hv]
          have hvk := hval k
          rw [hv] at hvk
          simpa [aget, hk'] using hvk
        · rw [aget_append_of_some _ hv]
          have hvk := hval k
          rw [hv] at hvk
          exact hvk
  · have hadd : PhysicalNetwork.linkAllocAdd la key d = aset la key (old + d) := by
      unfold PhysicalNetwork.linkAllocAdd; rw [hcase]
    have hmem : key ∈ la.map Prod.fst := aget_isSome_iff.mp (by rw [hcase]; rfl)
    have hnz : lpAmt lp key ≠ 0 := by
      intro hz
      rw [hval key, if_pos hz] at hcase
      exact Option.noConfusion hcase
    have hold : old = lpAmt lp key := by
      have hvk := hval key
      rw [hcase, if_neg hnz] at hvk
      exact Option.some.inj hvk
    rw [hadd]
    refine ⟨?_, ?_⟩
    · rw [aset_map_fst_of_mem _ hmem]; exact hnodup
    · intro k
      rw [lpAmt_cons]
      by_cases hk : (key, d).1 = k
      · have hk' : key = k := hk
        subst hk'
        rw [if_pos hk, aget_aset_self]
        have hpos' : 0 < lpAmt lp key :=
          lt_of_le_of_ne (lpAmt_nonneg hpos key) (Ne.symm hnz)
        rw [if_neg (by positivity : ¬ (key, d).2 + lpAmt lp key = 0), hold]
        simp [add_comm]
      · have hk' : k ≠ key := fun h => hk h.symm
        rw [if_neg hk, zero_add, aget_aset_ne _ _ _ hk']
        exact hval k

/-- A successful link allocation adds the pending element and touches the
ledger, preserving the attempt invariant. -/
theorem attemptInv_alloc_link {net0 : PhysicalNetwork} {sid : String} {tch : Bool}
    {np : List (String × ℚ)} {lp : Multiset ((String × String) × ℚ)}
    {net : PhysicalNetwork} {u v : String} {d : ℚ}
    (hI : AttemptInv net0 sid tch np lp net) (hd : 0 < d)
    (hg : ¬ net.get_link_bandwidth_available u v < d) :
    AttemptInv net0 sid true np ((linkId u v, d) ::ₘ lp)
      ((net.allocate_link_resources u v d sid).2) := by
  obtain ⟨hkn, hkl, hnc, hlc, hnd, hsupN, hsupL, hledger⟩ := hI
  have hpres : (aget net.links (linkId u v)).isSome = true :=
    presentL_of_avail_pos (lt_of_lt_of_le hd (not_lt.mp hg))
  have hpres0 : (aget net0.links (linkId u v)).isSome = true := by
    rw [← isSome_of_map_fst_eq hkl]; exact hpres
  have hlinks := PhysicalNetwork.allocate_link_resources_links net u v d sid
  rw [if_neg hg] at hlinks
  refine ⟨?_, ?_, ?_, ?_, hnd, hsupN, ?_, ?_⟩
  · rw [PhysicalNetwork.allocate_link_resources_nodes]; exact hkn
  · rw [hlinks, amod_map_fst]; exact hkl
  · intro m
    have hne := PhysicalNetwork.allocate_link_resources_nodes net u v d sid
    rw [get_node_cpu_available_of_nodes_eq hne, get_node_cpu_used_of_nodes_eq hne]
    exact hnc m
  · intro k
    rw [lAvailK_after_alloc_link net u v d sid hg k,
      lUsedK_after_alloc_link net u v d sid hg k, lpAmt_cons]
    by_cases hk : k = linkId u v
    · constructor
      · rw [if_pos (show k = linkId u v ∧ (aget net.links (linkId u v)).isSome = true
            from ⟨hk, hpres⟩), (hlc k).1, if_pos hk.symm]
        ring
      · rw [if_pos (show k = linkId u v ∧ (aget net.links (linkId u v)).isSome = true
            from ⟨hk, hpres⟩), (hlc k).2, if_pos hk.symm]
        ring
    · rw [if_neg (show ¬(k = linkId u v ∧ (aget net.links (linkId u v)).isSome = true)
          from by simp [hk]),
        if_neg (show ¬(k = linkId u v ∧ (aget net.links (linkId u v)).isSome = true)
          from by simp [hk])]
      refine ⟨?_, ?_⟩
      · rw [(hlc k).1, if_neg (fun h => hk h.symm)]; ring
      · rw [(hlc k).2, if_neg (fun h => hk h.symm)]; ring
  · intro e he
    rcases Multiset.mem_cons.mp he with h1 | h1
    · rw [h1]; exact ⟨hd, hpres0⟩
    · exact hsupL e h1
  · have hledg := PhysicalNetwork.allocate_link_resources_ledger net u v d sid hg
    cases tch with
    | false =>
      obtain ⟨hcnt, hnpnil, hlpz⟩ := hledger
      subst hnpnil; subst hlpz
      have hnone : aget net.sliceAllocations sid = none :=
        aget_eq_none_iff.mpr (by simpa [List.count_eq_zero] using hcnt)
      rw [hledg, hnone]
      simp only [Option.isSome_none, Bool.false_eq_true, if_false]
      refine ⟨?_, ⟨PhysicalNetwork.linkAllocAdd [] (linkId u v) d, ?_, ?_⟩⟩
      · rw [amod_map_fst, List.map_append, List.count_append]
        simp [hcnt]
      · rw [aget_amod_self, aget_append_of_none _ hnone]
        simp [aget, aset]
      · exact ledgerLinksRep_add ⟨by simp, fun k => by simp [aget, lpAmt_zero]⟩
          (by simp) hd
    | true =>
      obtain ⟨hcnt, la, hla, hrep⟩ := hledger
      rw [hledg, hla]
      simp only [Option.isSome_some, if_true]
      refine ⟨?_, ⟨PhysicalNetwork.linkAllocAdd la (linkId u v) d, ?_, ?_⟩⟩
      · rw [amod_map_fst]; exact hcnt
      · rw [aget_amod_self, hla]
        simp only [Option.map_some']
      · exact ledgerLinksRep_add hrep (fun e he => (hsupL e he).1) hd

/-- Releasing one pending element through the ledger link dict (subtract,
delete once the sum reaches zero) tracks erasing it from the multiset. -/
theorem ledgerLinksRep_sub {la : List ((String × String) × ℚ)}
    {lp : Multiset ((String × String) × ℚ)} (hrep : LedgerLinksRep la lp)
    (hpos : ∀ e ∈ lp, 0 < e.2) {key : String × String} {d : ℚ}
    (he : (key, d) ∈ lp) :
    LedgerLinksRep (PhysicalNetwork.linkAllocSub la key d) (lp.erase (key, d)) := by
  obtain ⟨hnodup, hval⟩ := hrep
  have hd : 0 < d := hpos _ he
  have hsum : lpAmt lp key = d + lpAmt (lp.erase (key, d)) key := by
    have h1 := lpAmt_erase he key
    simpa using h1
  have hrest : 0 ≤ lpAmt (lp.erase (key, d)) key :=
    lpAmt_nonneg (fun e he' => hpos e (Multiset.mem_of_mem_erase he')) key
  have hnz : lpAmt lp key ≠ 0 := by
    rw [hsum]; positivity
  have hget : aget la key = some (lpAmt lp key) := by rw [hval key, if_neg hnz]
  have hlpk : ∀ k, key ≠ k → lpAmt (lp.erase (key, d)) k = lpAmt lp k := by
    intro k hk
    rw [lpAmt_erase he k, if_neg (show ¬ ((key, d).1 = k) from hk)]
    ring
  by_cases hz : lpAmt (lp.erase (key, d)) key = 0
  · have hle : lpAmt lp key - d ≤ 0 := by rw [hsum, hz]; simp
    have hsub : PhysicalNetwork.linkAllocSub la key d = adel la key := by
      unfold PhysicalNetwork.linkAllocSub
      rw [hget]
      dsimp only
      rw [if_pos hle]
    rw [hsub]
    refine ⟨List.Nodup.sublist (adel_map_fst_sublist la key) hnodup, ?_⟩
    intro k
    by_cases hk : k = key
    · subst hk
      rw [aget_adel_self (List.nodup_iff_count_le_one.mp hnodup k), hz]
      simp
    · rw [aget_adel_ne _ _ hk, hval k, hlpk k (fun h => hk h.symm)]
  · have hlt : ¬ lpAmt lp key - d ≤ 0 := by
      have h2 : 0 < lpAmt (lp.erase (key, d)) key := lt_of_le_of_ne hrest (Ne.symm hz)
      rw [hsum]
      intro hcon
      nlinarith
    have hsub : PhysicalNetwork.linkAllocSub la key d =
        aset la key (lpAmt lp key - d) := by
      unfold PhysicalNetwork.linkAllocSub
      rw [hget]
      dsimp only
      rw [if_neg hlt]
    rw [hsub]
    refine ⟨?_, ?_⟩
    · rw [aset_map_fst_of_mem _ (aget_isSome_iff.mp (by rw [hget]; rfl))]
      exact hnodup
    · intro k
      by_cases hk : k = key
      · subst hk
        rw [aget_aset_self,
          show lpAmt lp k - d = lpAmt (lp.erase (k, d)) k by rw [hsum]; ring,
          if_neg hz]
      · rw [aget_aset_ne _ _ _ hk, hval k, hlpk k (fun h => hk h.symm)]

/-- Deallocating a pending link element restores its counters and decrements
its ledger amount, preserving the attempt invariant. -/
theorem attemptInv_dealloc_link {net0 : PhysicalNetwork} {sid : String}
    {np : List (String × ℚ)} {lp : Multiset ((String × String) × ℚ)}
    {net : PhysicalNetwork} {u v : String} {d : ℚ}
    (hI : AttemptInv net0 sid true np lp net) (hU0 : UsedNonneg net0)
    (he : (linkId u v, d) ∈ lp) :
    AttemptInv net0 sid true np (lp.erase (linkId u v, d))
      (net.deallocate_link_resources u v d sid) := by
  obtain ⟨hkn, hkl, hnc, hlc, hnd, hsupN, hsupL, hcnt, la, hla, hrep⟩ := hI
  have hd : 0 < d := (hsupL _ he).1
  have hpres0 : (aget net0.links (linkId u v)).isSome = true := (hsupL _ he).2
  have hpres : (aget net.links (linkId u v)).isSome = true := by
    rw [isSome_of_map_fst_eq hkl]; exact hpres0
  have hsum : ∀ k, k = linkId u v →
      lpAmt lp k = d + lpAmt (lp.erase (linkId u v, d)) k := by
    intro k hk
    rw [lpAmt_erase he k, if_pos (show (linkId u v, d).1 = k from hk.symm)]
  have hlpk : ∀ k, k ≠ linkId u v →
      lpAmt (lp.erase (linkId u v, d)) k = lpAmt lp k := by
    intro k hk
    rw [lpAmt_erase he k, if_neg (show ¬ ((linkId u v, d).1 = k) from fun h => hk h.symm)]
    ring
  refine ⟨?_, ?_, ?_, ?_, hnd, hsupN, ?_, ?_, PhysicalNetwork.linkAllocSub la (linkId u v) d, ?_, ?_⟩
  · rw [PhysicalNetwork.deallocate_link_resources_nodes]; exact hkn
  · rw [PhysicalNetwork.deallocate_link_resources_links, amod_map_fst]; exact hkl
  · intro m
    have hne := PhysicalNetwork.deallocate_link_resources_nodes net u v d sid
    rw [get_node_cpu_available_of_nodes_eq hne, get_node_cpu_used_of_nodes_eq hne]
    exact hnc m
  · intro k
    rw [lAvailK_after_dealloc_link net u v d sid k,
      lUsedK_after_dealloc_link net u v d sid k]
    by_cases hk : k = linkId u v
    · constructor
      · rw [if_pos (show k = linkId u v ∧ (aget net.links (linkId u v)).isSome = true
            from ⟨hk, hpres⟩), (hlc k).1, hsum k hk]
        ring
      · rw [if_pos (show k = linkId u v ∧ (aget net.links (linkId u v)).isSome = true
            from ⟨hk, hpres⟩), (hlc k).2, hsum k hk]
        have h1 : 0 ≤ lUsedK net0 k + lpAmt (lp.erase (linkId u v, d)) k :=
          add_nonneg (lUsedK_nonneg hU0 k)
            (lpAmt_nonneg (fun e he' => (hsupL e (Multiset.mem_of_mem_erase he')).1) k)
        rw [show lUsedK net0 k + (d + lpAmt (lp.erase (linkId u v, d)) k) - d =
            lUsedK net0 k + lpAmt (lp.erase (linkId u v, d)) k by ring]
        exact max_eq_right h1
    · rw [if_neg (show ¬(k = linkId u v ∧ (aget net.links (linkId u v)).isSome = true)
          from by simp [hk]),
        if_neg (show ¬(k = linkId u v ∧ (aget net.links (linkId u v)).isSome = true)
          from by simp [hk])]
      rw [hlpk k hk]
      exact hlc k
  · exact fun e he' => hsupL e (Multiset.mem_of_mem_erase he')
  · rw [PhysicalNetwork.deallocate_link_resources_ledger, amod_map_fst]; exact hcnt
  · rw [PhysicalNetwork.deallocate_link_resources_ledger, aget_amod_self, hla]
    simp only [Option.map_some']
  · exact ledgerLinksRep_sub hrep (fun e he' => (hsupL e he').1) he

/-- Rolling back an established node mapping empties the pending node list. -/
theorem rollback_node_mappings_inv (req : SliceRequest) {net0 : PhysicalNetwork}
    {lp : Multiset ((String × String) × ℚ)} (hU0 : UsedNonneg net0) :
    ∀ (m : List (String × String)) (net : PhysicalNetwork),
      AttemptInv net0 req.slice_id true (mappingAllocs req m) lp net →
      AttemptInv net0 req.slice_id true [] lp (rollback_node_mappings req m net)
  | [], _, hI => hI
  | _ :: m', _, hI =>
    rollback_node_mappings_inv req hU0 m' _ (attemptInv_dealloc_node hI hU0)

theorem add_singleton_eq {α : Type} (s : Multiset α) (x : α) :
    s + {x} = x ::ₘ s := by
  rw [add_comm, Multiset.singleton_add]

theorem pathItems_nil (d : ℚ) : pathItems d [] = 0 := rfl

theorem pathItems_cons (d : ℚ) (u v : String) (rest : List (String × String)) :
    pathItems d ((u, v) :: rest) = (linkId u v, d) ::ₘ pathItems d rest := rfl

theorem pathItems_append (d : ℚ) (l1 l2 : List (String × String)) :
    pathItems d (l1 ++ l2) = pathItems d l1 + pathItems d l2 := by
  unfold pathItems
  rw [List.map_append]
  exact (Multiset.coe_add _ _).symm

theorem lmAllocs_nil (req : SliceRequest) : lmAllocs req [] = 0 := rfl

theorem lmAllocs_cons (req : SliceRequest) (e : (String × String) × List String)
    (lm : List ((String × String) × List String)) :
    lmAllocs req (e :: lm) =
      pathItems (req.get_link_bandwidth_demand e.1.1 e.1.2)
        (PhysicalNetwork.pathPairs e.2) + lmAllocs req lm := by
  unfold lmAllocs pathItems
  rw [List.flatMap_cons]
  exact (Multiset.coe_add _ _).symm

theorem lmAllocs_append (req : SliceRequest)
    (l1 l2 : List ((String × String) × List String)) :
    lmAllocs req (l1 ++ l2) = lmAllocs req l1 + lmAllocs req l2 := by
  unfold lmAllocs
  rw [List.flatMap_append]
  exact (Multiset.coe_add _ _).symm

/-- The forward deallocation fold of a rollback removes exactly the pending
path elements. -/
theorem dealloc_pairs_inv {net0 : PhysicalNetwork} {sid : String}
    {np : List (String × ℚ)} (d : ℚ) (hU0 : UsedNonneg net0) :
    ∀ (done : List (String × String)) (lp0 : Multiset ((String × String) × ℚ))
      (net : PhysicalNetwork),
      AttemptInv net0 sid true np (lp0 + pathItems d done) net →
      AttemptInv net0 sid true np lp0
        (done.foldl (fun n p => n.deallocate_link_resources p.1 p.2 d sid) net)
  | [], lp0, net, hI => by simpa [pathItems_nil] using hI
  | (u, v) :: done', lp0, net, hI => by
    have hmem : (linkId u v, d) ∈ lp0 + pathItems d ((u, v) :: done') := by
      rw [pathItems_cons, Multiset.add_cons]
      exact Multiset.mem_cons_self _ _
    have h1 := attemptInv_dealloc_link hI hU0 hmem
    have herase : (lp0 + pathItems d ((u, v) :: done')).erase (linkId u v, d)
        = lp0 + pathItems d done' := by
      rw [pathItems_cons, Multiset.add_cons, Multiset.erase_cons_head]
    rw [herase] at h1
    exact dealloc_pairs_inv d hU0 done' lp0 _ h1

theorem allocPathGo_cons (sid : String) (d : ℚ) (net : PhysicalNetwork)
    (u v : String) (rest done : List (String × String)) :
    PhysicalNetwork.allocPathGo sid d net ((u, v) :: rest) done =
      if (net.allocate_link_resources u v d sid).1 then
        PhysicalNetwork.allocPathGo sid d (net.allocate_link_resources u v d sid).2
          rest (done ++ [(u, v)])
      else (false, done.foldl
        (fun n p => n.deallocate_link_resources p.1 p.2 d sid)
        (net.allocate_link_resources u v d sid).2) := rfl

/-- The allocate-or-rollback loop of allocate_path_resources: on success the
pending multiset gains one element per pair; on failure it is restored. -/
theorem allocPathGo_inv {net0 : PhysicalNetwork} {sid : String}
    {np : List (String × ℚ)} (d : ℚ) (hd : 0 < d) (hU0 : UsedNonneg net0) :
    ∀ (pairs done : List (String × String)) (tch : Bool)
      (lp0 : Multiset ((String × String) × ℚ)) (net : PhysicalNetwork),
      AttemptInv net0 sid tch np (lp0 + pathItems d done) net →
      (done ≠ [] → tch = true) →
      ((PhysicalNetwork.allocPathGo sid d net pairs done).1 = true →
        ∃ tch2, (tch = true → tch2 = true) ∧
          AttemptInv net0 sid tch2 np (lp0 + pathItems d (done ++ pairs))
            (PhysicalNetwork.allocPathGo sid d net pairs done).2) ∧
      ((PhysicalNetwork.allocPathGo sid d net pairs done).1 = false →
        ∃ tch2, (tch = true → tch2 = true) ∧
          AttemptInv net0 sid tch2 np lp0
            (PhysicalNetwork.allocPathGo sid d net pairs done).2)
  | [], done, tch, lp0, net, hI, htch => by
    refine ⟨fun _ => ⟨tch, fun h => h, ?_⟩, fun hfalse => ?_⟩
    · simpa using hI
    · rw [show PhysicalNetwork.allocPathGo sid d net [] done = (true, net) from rfl]
        at hfalse
      exact absurd hfalse (by simp)
  | (u, v) :: rest, done, tch, lp0, net, hI, htch => by
    rw [allocPathGo_cons]
    by_cases hr : (net.allocate_link_resources u v d sid).1 = true
    · rw [if_pos hr]
      have hg : ¬ net.get_link_bandwidth_available u v < d := by
        rw [allocate_link_resources_fst] at hr
        simpa using hr
      have h1 := attemptInv_alloc_link hI hd hg
      have hx : pathItems d [(u, v)] = {(linkId u v, d)} := rfl
      have hmul : (linkId u v, d) ::ₘ (lp0 + pathItems d done)
          = lp0 + pathItems d (done ++ [(u, v)]) := by
        rw [pathItems_append, hx, add_singleton_eq, Multiset.add_cons]
      rw [hmul] at h1
      have ih := allocPathGo_inv d hd hU0 rest (done ++ [(u, v)]) true lp0 _ h1
        (fun _ => rfl)
      have hlist : (done ++ [(u, v)]) ++ rest = done ++ (u, v) :: rest := by
        rw [List.append_assoc]; rfl
      refine ⟨fun hs => ?_, fun hf => ?_⟩
      · obtain ⟨tch2, hm2, hI2⟩ := ih.1 hs
        rw [hlist] at hI2
        exact ⟨tch2, fun _ => hm2 rfl, hI2⟩
      · obtain ⟨tch2, hm2, hI2⟩ := ih.2 hf
        exact ⟨tch2, fun _ => hm2 rfl, hI2⟩
    · rw [if_neg hr]
      have hg : net.get_link_bandwidth_available u v < d := by
        rw [allocate_link_resources_fst] at hr
        simpa using hr
      have hnet : (net.allocate_link_resources u v d sid).2 = net :=
        alloc_link_fail_snd hg
      rw [hnet]
      refine ⟨fun hs => absurd hs (by simp), fun _ => ?_⟩
      cases done with
      | nil =>
        exact ⟨tch, fun h => h, by simpa [pathItems_nil] using hI⟩
      | cons e done' =>
        have htch' : tch = true := htch (by simp)
        subst htch'
        exact ⟨true, fun _ => rfl, dealloc_pairs_inv d hU0 (e :: done') lp0 net hI⟩

theorem link_demand_pos {req : SliceRequest} (hpos : PositiveDemands req)
    (hcanon : LinksCanonical req) {kk : String × String}
    (hmem : kk ∈ req.links.map Prod.fst) :
    0 < req.get_link_bandwidth_demand kk.1 kk.2 := by
  unfold SliceRequest.get_link_bandwidth_demand
  rw [hcanon kk hmem]
  rcases hv : aget req.links kk with _ | v
  · exact absurd (aget_eq_none_iff.mp hv) (by simpa using hmem)
  · simpa using hpos.2 _ (aget_mem hv)

/-- allocate_path_resources either adds exactly one pending element per pair
of the path or leaves the pending multiset as it was. -/
theorem allocate_path_resources_inv {net0 : PhysicalNetwork} {sid : String}
    {np : List (String × ℚ)} {tch : Bool}
    {lp0 : Multiset ((String × String) × ℚ)} {net : PhysicalNetwork}
    (d : ℚ) (hd : 0 < d) (hU0 : UsedNonneg net0) (path : List String)
    (hI : AttemptInv net0 sid tch np lp0 net) :
    ((net.allocate_path_resources path d sid).1 = true →
      ∃ tch2, (tch = true → tch2 = true) ∧
        AttemptInv net0 sid tch2 np
          (lp0 + pathItems d (PhysicalNetwork.pathPairs path))
          (net.allocate_path_resources path d sid).2) ∧
    ((net.allocate_path_resources path d sid).1 = false →
      ∃ tch2, (tch = true → tch2 = true) ∧
        AttemptInv net0 sid tch2 np lp0
          (net.allocate_path_resources path d sid).2) := by
  unfold PhysicalNetwork.allocate_path_resources
  by_cases hpre : ((PhysicalNetwork.pathPairs path).all
      (fun p => !(net.get_link_bandwidth_available p.1 p.2 < d))) = true
  · rw [if_pos hpre]
    have h0 : AttemptInv net0 sid tch np (lp0 + pathItems d []) net := by
      simpa [pathItems_nil] using hI
    have h := allocPathGo_inv d hd hU0 (PhysicalNetwork.pathPairs path) [] tch lp0
      net h0 (fun hc => absurd rfl hc)
    simpa using h
  · rw [if_neg hpre]
    exact ⟨fun hs => absurd hs (by simp), fun _ => ⟨tch, fun h => h, hI⟩⟩

/-- Rolling back an established link mapping empties the pending multiset. -/
theorem rollback_link_mappings_inv (req : SliceRequest) {net0 : PhysicalNetwork}
    {np : List (String × ℚ)} (hU0 : UsedNonneg net0) :
    ∀ (lm : List ((String × String) × List String)) (tch : Bool)
      (net : PhysicalNetwork),
      AttemptInv net0 req.slice_id tch np (lmAllocs req lm) net →
      ∃ tch2, (tch = true → tch2 = true) ∧
        AttemptInv net0 req.slice_id tch2 np 0
          (rollback_link_mappings req lm net)
  | [], tch, net, hI => ⟨tch, fun h => h, by simpa [lmAllocs_nil] using hI⟩
  | e :: lm', tch, net, hI => by
    have hsplit : lmAllocs req (e :: lm') =
        lmAllocs req lm' + pathItems (req.get_link_bandwidth_demand e.1.1 e.1.2)
          (PhysicalNetwork.pathPairs e.2) := by
      rw [lmAllocs_cons, add_comm]
    rw [hsplit] at hI
    have hstep : rollback_link_mappings req (e :: lm') net =
        rollback_link_mappings req lm'
          ((PhysicalNetwork.pathPairs e.2).foldl
            (fun n2 p => n2.deallocate_link_resources p.1 p.2
              (req.get_link_bandwidth_demand e.1.1 e.1.2) req.slice_id) net) := rfl
    rw [hstep]
    by_cases hnilp : PhysicalNetwork.pathPairs e.2 = []
    · rw [hnilp] at hI
      have hI' : AttemptInv net0 req.slice_id tch np (lmAllocs req lm') net := by
        simpa [pathItems_nil] using hI
      rw [hnilp]
      exact rollback_link_mappings_inv req hU0 lm' tch _ hI'
    · have htch : tch = true := by
        cases tch with
        | true => rfl
        | false =>
          exfalso
          obtain ⟨_, _, _, _, _, _, _, _, _, hlp0⟩ := hI
          have hz : pathItems (req.get_link_bandwidth_demand e.1.1 e.1.2)
              (PhysicalNetwork.pathPairs e.2) = 0 :=
            Multiset.le_zero.mp (le_of_le_of_eq (Multiset.le_add_left _ _) hlp0)
          have hz' : ((PhysicalNetwork.pathPairs e.2).map
              (fun p => (linkId p.1 p.2, req.get_link_bandwidth_demand e.1.1 e.1.2))
              : Multiset ((String × String) × ℚ)) = 0 := hz
          rw [Multiset.coe_eq_zero, List.map_eq_nil_iff] at hz'
          exact hnilp hz'
      subst htch
      have h1 := dealloc_pairs_inv (req.get_link_bandwidth_demand e.1.1 e.1.2) hU0
        (PhysicalNetwork.pathPairs e.2) (lmAllocs req lm') net hI
      obtain ⟨tch2, hm2, hI2⟩ := rollback_link_mappings_inv req hU0 lm' true _ h1
      exact ⟨tch2, fun _ => hm2 rfl, hI2⟩

/-- The per-slice-link loop: on success the pending multiset is exactly the
established mapping's contribution and the mapped keys extend in order; on
failure everything allocated by the link phase is rolled back. -/
theorem linkProvisionGo_inv (k : ℕ) (um : Bool) (req : SliceRequest)
    (mapping : List (String × String)) {net0 : PhysicalNetwork}
    {np : List (String × ℚ)} (hU0 : UsedNonneg net0)
    (hpos : PositiveDemands req) (hcanon : LinksCanonical req) :
    ∀ (todo : List (String × String))
      (lm : List ((String × String) × List String)) (tch : Bool)
      (net : PhysicalNetwork),
      AttemptInv net0 req.slice_id tch np (lmAllocs req lm) net →
      (∀ s ∈ todo, s ∈ req.links.map Prod.fst) →
      (∀ lm', (linkProvisionGo k um req mapping todo net lm).1 = some lm' →
        ∃ tch2, (tch = true → tch2 = true) ∧
          AttemptInv net0 req.slice_id tch2 np (lmAllocs req lm')
            (linkProvisionGo k um req mapping todo net lm).2 ∧
          lm'.map Prod.fst = lm.map Prod.fst ++ todo) ∧
      ((linkProvisionGo k um req mapping todo net lm).1 = none →
        ∃ tch2, (tch = true → tch2 = true) ∧
          AttemptInv net0 req.slice_id tch2 np 0
            (linkProvisionGo k um req mapping todo net lm).2)
  | [], lm, tch, net, hI, _ => by
    rw [show linkProvisionGo k um req mapping [] net lm = (some lm, net) from rfl]
    refine ⟨fun lm' hs => ?_, fun hf => absurd hf (by simp)⟩
    have hse : lm = lm' := Option.some.inj hs
    subst hse
    exact ⟨tch, fun h => h, hI, by simp⟩
  | slink :: rest, lm, tch, net, hI, htodo => by
    have hmem : slink ∈ req.links.map Prod.fst := htodo slink (List.mem_cons_self _ _)
    have hd : 0 < req.get_link_bandwidth_demand slink.1 slink.2 :=
      link_demand_pos hpos hcanon hmem
    rcases h1 : aget mapping slink.1 with _ | psrc
    · have hred : linkProvisionGo k um req mapping (slink :: rest) net lm
          = (none, rollback_link_mappings req lm net) := by
        simp only [linkProvisionGo]
        rw [h1]
      rw [hred]
      refine ⟨fun lm' hs => absurd hs (by simp), fun _ => ?_⟩
      obtain ⟨tch2, hm2, hI2⟩ := rollback_link_mappings_inv req hU0 lm tch net hI
      exact ⟨tch2, hm2, hI2⟩
    · rcases h2 : aget mapping slink.2 with _ | pdst
      · have hred : linkProvisionGo k um req mapping (slink :: rest) net lm
            = (none, rollback_link_mappings req lm net) := by
          simp only [linkProvisionGo]
          rw [h1, h2]
        rw [hred]
        refine ⟨fun lm' hs => absurd hs (by simp), fun _ => ?_⟩
        obtain ⟨tch2, hm2, hI2⟩ := rollback_link_mappings_inv req hU0 lm tch net hI
        exact ⟨tch2, hm2, hI2⟩
      · rcases hyen : k_shortest_paths_with_bandwidth net psrc pdst
            (req.get_link_bandwidth_demand slink.1 slink.2) k with _ | ⟨c0, crest⟩
        · have hred : linkProvisionGo k um req mapping (slink :: rest) net lm
              = (none, rollback_link_mappings req lm net) := by
            simp only [linkProvisionGo]
            rw [h1, h2]
            dsimp only
            rw [hyen]
          rw [hred]
          refine ⟨fun lm' hs => absurd hs (by simp), fun _ => ?_⟩
          obtain ⟨tch2, hm2, hI2⟩ := rollback_link_mappings_inv req hU0 lm tch net hI
          exact ⟨tch2, hm2, hI2⟩
        · by_cases har : (net.allocate_path_resources
              (if um then (minmax_bw_util_hops net (c0 :: crest)).getD c0 else c0).nodes
              (req.get_link_bandwidth_demand slink.1 slink.2) req.slice_id).1 = true
          · have hred : linkProvisionGo k um req mapping (slink :: rest) net lm
                = linkProvisionGo k um req mapping rest
                  (net.allocate_path_resources
                    (if um then (minmax_bw_util_hops net (c0 :: crest)).getD c0 else c0).nodes
                    (req.get_link_bandwidth_demand slink.1 slink.2) req.slice_id).2
                  (lm ++ [(slink,
                    (if um then (minmax_bw_util_hops net (c0 :: crest)).getD c0 else c0).nodes)]) := by
              simp only [linkProvisionGo]
              rw [h1, h2]
              dsimp only
              rw [hyen]
              dsimp only
              rw [if_pos har]
            rw [hred]
            obtain ⟨tch2, hm2, hI2⟩ := (allocate_path_resources_inv
              (req.get_link_bandwidth_demand slink.1 slink.2) hd hU0
              (if um then (minmax_bw_util_hops net (c0 :: crest)).getD c0 else c0).nodes
              hI).1 har
            have hlm : lmAllocs req (lm ++ [(slink,
                (if um then (minmax_bw_util_hops net (c0 :: crest)).getD c0 else c0).nodes)])
                = lmAllocs req lm + pathItems (req.get_link_bandwidth_demand slink.1 slink.2)
                  (PhysicalNetwork.pathPairs
                    (if um then (minmax_bw_util_hops net (c0 :: crest)).getD c0 else c0).nodes) := by
              simp [lmAllocs_append, lmAllocs_cons, lmAllocs_nil]
            rw [← hlm] at hI2
            have ih := linkProvisionGo_inv k um req mapping hU0 hpos hcanon rest
              (lm ++ [(slink,
                (if um then (minmax_bw_util_hops net (c0 :: crest)).getD c0 else c0).nodes)])
              tch2 _ hI2 (fun s hs => htodo s (List.mem_cons_of_mem _ hs))
            refine ⟨fun lm' hs => ?_, fun hf => ?_⟩
            · obtain ⟨tch3, hm3, hI3, hfst⟩ := ih.1 lm' hs
              refine ⟨tch3, fun h => hm3 (hm2 h), hI3, ?_⟩
              rw [hfst]
              simp
            · obtain ⟨tch3, hm3, hI3⟩ := ih.2 hf
              exact ⟨tch3, fun h => hm3 (hm2 h), hI3⟩
          · have hred : linkProvisionGo k um req mapping (slink :: rest) net lm
                = (none, rollback_link_mappings req lm
                  (net.allocate_path_resources
                    (if um then (minmax_bw_util_hops net (c0 :: crest)).getD c0 else c0).nodes
                    (req.get_link_bandwidth_demand slink.1 slink.2) req.slice_id).2) := by
              simp only [linkProvisionGo]
              rw [h1, h2]
              dsimp only
              rw [hyen]
              dsimp only
              rw [if_neg har]
            rw [hred]
            refine ⟨fun lm' hs => absurd hs (by simp), fun _ => ?_⟩
            obtain ⟨tch2, hm2, hI2⟩ := (allocate_path_resources_inv
              (req.get_link_bandwidth_demand slink.1 slink.2) hd hU0
              (if um then (minmax_bw_util_hops net (c0 :: crest)).getD c0 else c0).nodes
              hI).2 (by simpa using har)
            obtain ⟨tch3, hm3, hI3⟩ := rollback_link_mappings_inv req hU0 lm tch2 _ hI2
            exact ⟨tch3, fun h => hm3 (hm2 h), hI3⟩

theorem rankPhysGo_fst (alpha beta epsilon : ℚ) (net : PhysicalNetwork)
    (mn : List String) :
    ∀ (todo : List String) (cache : MetricCache) (acc : List (String × ℚ)),
      (rankPhysGo alpha beta epsilon net mn todo cache acc).1.map Prod.fst
        = acc.map Prod.fst ++ todo
  | [], cache, acc => by simp [rankPhysGo]
  | n :: rest, cache, acc => by
    simp only [rankPhysGo]
    rw [rankPhysGo_fst alpha beta epsilon net mn rest _ _]
    simp

/-- Every row returned by rank_physical_nodes names one of the candidates. -/
theorem rank_physical_nodes_fst_mem (alpha beta epsilon : ℚ)
    (net : PhysicalNetwork) (cache : MetricCache) (cands mn : List String)
    {e : String × ℚ}
    (he : e ∈ (rank_physical_nodes alpha beta epsilon net cache cands mn).1) :
    e.1 ∈ cands := by
  unfold rank_physical_nodes at he
  dsimp only at he
  have he2 : e ∈ (rankPhysGo alpha beta epsilon net mn cands cache []).1 :=
    (List.perm_insertionSort _ _).mem_iff.mp he
  have h3 := List.mem_map_of_mem Prod.fst he2
  rw [rankPhysGo_fst] at h3
  simpa using h3

theorem node_demand_pos {req : SliceRequest} (hpos : PositiveDemands req)
    {s : String} (hmem : s ∈ req.nodes.map Prod.fst) :
    0 < req.get_node_cpu_demand s := by
  unfold SliceRequest.get_node_cpu_demand
  rcases hv : aget req.nodes s with _ | v
  · exact absurd (aget_eq_none_iff.mp hv) (by simpa using hmem)
  · simpa using hpos.1 _ (aget_mem hv)

/-- Node-phase rollback for an arbitrary touched flag: a nonempty mapping
forces the flag, an empty one makes the rollback a no-op. -/
theorem rollback_node_mappings_inv_any (req : SliceRequest)
    {net0 : PhysicalNetwork} (hU0 : UsedNonneg net0)
    {mapping : List (String × String)} {tch : Bool} {net : PhysicalNetwork}
    {lp : Multiset ((String × String) × ℚ)}
    (hI : AttemptInv net0 req.slice_id tch (mappingAllocs req mapping) lp net) :
    ∃ tch2, (tch = true → tch2 = true) ∧
      AttemptInv net0 req.slice_id tch2 [] lp
        (rollback_node_mappings req mapping net) := by
  cases mapping with
  | nil => exact ⟨tch, fun h => h, hI⟩
  | cons e m' =>
    have htch : tch = true := by
      cases tch with
      | true => rfl
      | false =>
        exfalso
        obtain ⟨_, _, _, _, _, _, _, _, hnp, _⟩ := hI
        simp [mappingAllocs] at hnp
    subst htch
    exact ⟨true, fun _ => rfl, rollback_node_mappings_inv req hU0 (e :: m') net hI⟩

/-- The per-slice-node loop: on success the pending node list is exactly the
mapping's contribution and the mapped keys extend in order; on failure every
committed node is rolled back. -/
theorem nodeProvisionGo_inv (alpha beta epsilon : ℚ) (req : SliceRequest)
    {net0 : PhysicalNetwork} (hU0 : UsedNonneg net0)
    (hpos : PositiveDemands req) :
    ∀ (todo : List String) (net : PhysicalNetwork) (cache : MetricCache)
      (mapping : List (String × String)) (tch : Bool),
      AttemptInv net0 req.slice_id tch (mappingAllocs req mapping) 0 net →
      (∀ s ∈ todo, s ∈ req.nodes.map Prod.fst) →
      (∀ m', (nodeProvisionGo alpha beta epsilon req todo net cache mapping).1 = some m' →
        ∃ tch2, (tch = true → tch2 = true) ∧
          AttemptInv net0 req.slice_id tch2 (mappingAllocs req m') 0
            (nodeProvisionGo alpha beta epsilon req todo net cache mapping).2.1 ∧
          m'.map Prod.fst = mapping.map Prod.fst ++ todo) ∧
      ((nodeProvisionGo alpha beta epsilon req todo net cache mapping).1 = none →
        ∃ tch2, (tch = true → tch2 = true) ∧
          AttemptInv net0 req.slice_id tch2 [] 0
            (nodeProvisionGo alpha beta epsilon req todo net cache mapping).2.1)
  | [], net, cache, mapping, tch, hI, _ => by
    rw [show nodeProvisionGo alpha beta epsilon req [] net cache mapping
      = (some mapping, net, cache) from rfl]
    refine ⟨fun m' hs => ?_, fun hf => absurd hf (by simp)⟩
    have hse : mapping = m' := Option.some.inj hs
    subst hse
    exact ⟨tch, fun h => h, hI, by simp⟩
  | s :: rest, net, cache, mapping, tch, hI, htodo => by
    by_cases hc1 : (get_candidate_physical_nodes req net s).isEmpty = true
    · have hred : nodeProvisionGo alpha beta epsilon req (s :: rest) net cache mapping
          = (none, rollback_node_mappings req mapping net, cache) := by
        simp only [nodeProvisionGo]
        rw [if_pos hc1]
      rw [hred]
      exact ⟨fun m' hs => absurd hs (by simp),
        fun _ => rollback_node_mappings_inv_any req hU0 hI⟩
    · by_cases hc2 : ((get_candidate_physical_nodes req net s).filter
          fun c => !(mapping.any fun q => decide (q.2 = c))).isEmpty = true
      · have hred : nodeProvisionGo alpha beta epsilon req (s :: rest) net cache mapping
            = (none, rollback_node_mappings req mapping net, cache) := by
          simp only [nodeProvisionGo]
          rw [if_neg hc1]
          rw [if_pos hc2]
        rw [hred]
        exact ⟨fun m' hs => absurd hs (by simp),
          fun _ => rollback_node_mappings_inv_any req hU0 hI⟩
      · rcases hr : (rank_physical_nodes alpha beta epsilon net cache
            ((get_candidate_physical_nodes req net s).filter
              fun c => !(mapping.any fun q => decide (q.2 = c)))
            (get_mapped_neighbors req s mapping)).1 with _ | ⟨⟨best, score⟩, rtl⟩
        · have hred : nodeProvisionGo alpha beta epsilon req (s :: rest) net cache mapping
              = (none, rollback_node_mappings req mapping net,
                (rank_physical_nodes alpha beta epsilon net cache
                  ((get_candidate_physical_nodes req net s).filter
                    fun c => !(mapping.any fun q => decide (q.2 = c)))
                  (get_mapped_neighbors req s mapping)).2) := by
            simp only [nodeProvisionGo]
            rw [if_neg hc1]
            rw [if_neg hc2]
            rw [hr]
          rw [hred]
          exact ⟨fun m' hs => absurd hs (by simp),
            fun _ => rollback_node_mappings_inv_any req hU0 hI⟩
        · have hbest : best ∈ (get_candidate_physical_nodes req net s).filter
              fun c => !(mapping.any fun q => decide (q.2 = c)) := by
            have hmem : ((best, score) : String × ℚ) ∈
                (rank_physical_nodes alpha beta epsilon net cache
                  ((get_candidate_physical_nodes req net s).filter
                    fun c => !(mapping.any fun q => decide (q.2 = c)))
                  (get_mapped_neighbors req s mapping)).1 := by
              rw [hr]; exact List.mem_cons_self _ _
            exact rank_physical_nodes_fst_mem alpha beta epsilon net cache _ _ hmem
          have hfresh : best ∉ (mappingAllocs req mapping).map Prod.fst := by
            rw [mappingAllocs_fst]
            have hflt := List.of_mem_filter hbest
            simp only [Bool.not_eq_true', List.any_eq_false, decide_eq_true_eq] at hflt
            intro hcon
            rcases List.mem_map.mp hcon with ⟨q, hq, hq2⟩
            simp at hflt
            exact hflt q.1 q.2 hq hq2
          have hd : 0 < req.get_node_cpu_demand s :=
            node_demand_pos hpos (htodo s (List.mem_cons_self _ _))
          by_cases ha : (net.allocate_node_resources best
              (req.get_node_cpu_demand s) req.slice_id).1 = true
          · have hred : nodeProvisionGo alpha beta epsilon req (s :: rest) net cache mapping
                = nodeProvisionGo alpha beta epsilon req rest
                  (net.allocate_node_resources best
                    (req.get_node_cpu_demand s) req.slice_id).2
                  (rank_physical_nodes alpha beta epsilon net cache
                    ((get_candidate_physical_nodes req net s).filter
                      fun c => !(mapping.any fun q => decide (q.2 = c)))
                    (get_mapped_neighbors req s mapping)).2
                  (mapping ++ [(s, best)]) := by
              simp only [nodeProvisionGo]
              rw [if_neg hc1]
              rw [if_neg hc2]
              rw [hr]
              dsimp only
              rw [if_pos ha]
            rw [hred]
            have hg : ¬ net.get_node_cpu_available best < req.get_node_cpu_demand s := by
              rw [allocate_node_resources_fst] at ha
              simpa using ha
            have h1 := attemptInv_alloc_node hI hd hfresh hg
            have hmap : mappingAllocs req (mapping ++ [(s, best)])
                = mappingAllocs req mapping ++ [(best, req.get_node_cpu_demand s)] := by
              simp [mappingAllocs]
            rw [← hmap] at h1
            have ih := nodeProvisionGo_inv alpha beta epsilon req hU0 hpos rest
              (net.allocate_node_resources best
                (req.get_node_cpu_demand s) req.slice_id).2
              (rank_physical_nodes alpha beta epsilon net cache
                ((get_candidate_physical_nodes req net s).filter
                  fun c => !(mapping.any fun q => decide (q.2 = c)))
                (get_mapped_neighbors req s mapping)).2
              (mapping ++ [(s, best)]) true h1
              (fun x hx => htodo x (List.mem_cons_of_mem _ hx))
            refine ⟨fun m' hs => ?_, fun hf => ?_⟩
            · obtain ⟨tch3, hm3, hI3, hfst⟩ := ih.1 m' hs
              refine ⟨tch3, fun _ => hm3 rfl, hI3, ?_⟩
              rw [hfst]
              simp
            · obtain ⟨tch3, hm3, hI3⟩ := ih.2 hf
              exact ⟨tch3, fun _ => hm3 rfl, hI3⟩
          · have hred : nodeProvisionGo alpha beta epsilon req (s :: rest) net cache mapping
                = (none, rollback_node_mappings req mapping
                  (net.allocate_node_resources best
                    (req.get_node_cpu_demand s) req.slice_id).2,
                  (rank_physical_nodes alpha beta epsilon net cache
                    ((get_candidate_physical_nodes req net s).filter
                      fun c => !(mapping.any fun q => decide (q.2 = c)))
                    (get_mapped_neighbors req s mapping)).2) := by
              simp only [nodeProvisionGo]
              rw [if_neg hc1]
              rw [if_neg hc2]
              rw [hr]
              dsimp only
              rw [if_neg ha]
            rw [hred]
            have hga : net.get_node_cpu_available best < req.get_node_cpu_demand s := by
              rw [allocate_node_resources_fst] at ha
              simpa using ha
            rw [alloc_node_fail_snd hga]
            exact ⟨fun m' hs => absurd hs (by simp),
              fun _ => rollback_node_mappings_inv_any req hU0 hI⟩

theorem countersEq_of_attemptInv {net0 net : PhysicalNetwork} {sid : String}
    {tch : Bool} (hI : AttemptInv net0 sid tch [] 0 net) :
    CountersEq net net0 := by
  obtain ⟨_, _, hnc, hlc, _⟩ := hI
  constructor
  · intro n
    have := hnc n
    simpa [npAmt_nil] using this
  · intro k
    have := hlc k
    simpa [lpAmt_zero] using this

/-- Before any allocation the attempt invariant holds of the untouched
network, provided the slice id is not yet in the ledger. -/
theorem attemptInv_init {net0 : PhysicalNetwork} {sid : String}
    (hfresh : aget net0.sliceAllocations sid = none) :
    AttemptInv net0 sid false [] 0 net0 := by
  refine ⟨rfl, rfl, ?_, ?_, List.nodup_nil, ?_, ?_, ?_, rfl, rfl⟩
  · intro n; simp [npAmt_nil]
  · intro k; simp [lpAmt_zero]
  · simp
  · simp
  · simpa [List.count_eq_zero] using aget_eq_none_iff.mp hfresh

theorem rank_slice_nodes_fst_perm (alpha beta : ℚ) (req : SliceRequest) :
    ((rank_slice_nodes alpha beta req).map Prod.fst).Perm
      (req.nodes.map Prod.fst) := by
  unfold rank_slice_nodes
  refine List.Perm.trans (List.Perm.map Prod.fst (List.perm_insertionSort _ _)) ?_
  rw [List.map_map]
  exact List.Perm.refl _

theorem rank_slice_links_perm (req : SliceRequest) :
    (rank_slice_links_by_bandwidth req).Perm (req.links.map Prod.fst) :=
  List.perm_insertionSort _ _

theorem provision_slice_node_fail (p : AlgParams) (req : SliceRequest)
    (net : PhysicalNetwork) (cache : MetricCache)
    (h : (node_provision p.alpha p.beta p.epsilon req net cache).1 = none) :
    provision_slice p req net cache =
      (⟨false, [], [], some nodeFailMsg⟩,
       (node_provision p.alpha p.beta p.epsilon req net cache).2.1,
       (node_provision p.alpha p.beta p.epsilon req net cache).2.2) := by
  unfold provision_slice
  rcases hm : node_provision p.alpha p.beta p.epsilon req net cache with ⟨o, net1, cache1⟩
  rw [hm] at h
  dsimp only at h
  subst h
  rfl

theorem provision_slice_link_fail (p : AlgParams) (req : SliceRequest)
    (net : PhysicalNetwork) (cache : MetricCache)
    {nm : List (String × String)}
    (h : (node_provision p.alpha p.beta p.epsilon req net cache).1 = some nm)
    (h2 : (link_provision p.k p.use_minmax_strategy req
      (node_provision p.alpha p.beta p.epsilon req net cache).2.1 nm).1 = none) :
    provision_slice p req net cache =
      (⟨false, [], [], some linkFailMsg⟩,
       rollback_node_mappings req nm
         (link_provision p.k p.use_minmax_strategy req
           (node_provision p.alpha p.beta p.epsilon req net cache).2.1 nm).2,
       (node_provision p.alpha p.beta p.epsilon req net cache).2.2) := by
  unfold provision_slice
  rcases hm : node_provision p.alpha p.beta p.epsilon req net cache with ⟨o, net1, cache1⟩
  rw [hm] at h h2
  dsimp only at h h2
  subst h
  dsimp only
  rcases hl : link_provision p.k p.use_minmax_strategy req net1 nm with ⟨ol, net2⟩
  rw [hl] at h2
  dsimp only at h2
  subst h2
  rfl

theorem provision_slice_success (p : AlgParams) (req : SliceRequest)
    (net : PhysicalNetwork) (cache : MetricCache)
    {nm : List (String × String)} {lm : List ((String × String) × List String)}
    (h : (node_provision p.alpha p.beta p.epsilon req net cache).1 = some nm)
    (h2 : (link_provision p.k p.use_minmax_strategy req
      (node_provision p.alpha p.beta p.epsilon req net cache).2.1 nm).1 = some lm) :
    provision_slice p req net cache =
      (⟨true, nm, lm, none⟩,
       (link_provision p.k p.use_minmax_strategy req
         (node_provision p.alpha p.beta p.epsilon req net cache).2.1 nm).2,
       (node_provision p.alpha p.beta p.epsilon req net cache).2.2) := by
  unfold provision_slice
  rcases hm : node_provision p.alpha p.beta p.epsilon req net cache with ⟨o, net1, cache1⟩
  rw [hm] at h h2
  dsimp only at h h2
  subst h
  dsimp only
  rcases hl : link_provision p.k p.use_minmax_strategy req net1 nm with ⟨ol, net2⟩
  rw [hl] at h2
  dsimp only at h2
  subst h2
  rfl

theorem assoc_nil_of_aget_none {α β : Type} [DecidableEq α]
    {l : List (α × β)} (h : ∀ k, aget l k = none) : l = [] := by
  cases l with
  | nil => rfl
  | cons e t =>
    exfalso
    obtain ⟨a, b⟩ := e
    have := h a
    simp [aget] at this

/-- C2: if provision_slice fails — in the node phase or in the link phase
with the committed nodes deallocated — then every cpu and bandwidth counter
of the returned network equals its pre-attempt value.  The hypotheses state
the operating conditions: used counters start nonnegative, the request's
demands are positive, its link keys are canonical (as add_slice_link
produces), and the slice id is new to the allocation ledger. -/
theorem failed_provisioning_restores_counters (p : AlgParams)
    (req : SliceRequest) (net0 : PhysicalNetwork) (cache : MetricCache)
    (hU0 : UsedNonneg net0) (hpos : PositiveDemands req)
    (hcanon : LinksCanonical req)
    (hfresh : aget net0.sliceAllocations req.slice_id = none)
    (hfail : (provision_slice p req net0 cache).1.success = false) :
    CountersEq (provision_slice p req net0 cache).2.1 net0 := by
  have h0 : AttemptInv net0 req.slice_id false [] 0 net0 := attemptInv_init hfresh
  have hnp := nodeProvisionGo_inv p.alpha p.beta p.epsilon req hU0 hpos
    ((rank_slice_nodes p.alpha p.beta req).map Prod.fst) net0 cache [] false h0
    (fun s hs => (rank_slice_nodes_fst_perm p.alpha p.beta req).mem_iff.mp hs)
  rcases hrn : (node_provision p.alpha p.beta p.epsilon req net0 cache).1 with _ | nm
  · rw [provision_slice_node_fail p req net0 cache hrn]
    obtain ⟨tch2, _, hI2⟩ := hnp.2 hrn
    exact countersEq_of_attemptInv hI2
  · obtain ⟨tch2, _, hI2, hfst⟩ := hnp.1 nm hrn
    have hlp := linkProvisionGo_inv p.k p.use_minmax_strategy req nm hU0 hpos hcanon
      (rank_slice_links_by_bandwidth req) [] tch2
      (node_provision p.alpha p.beta p.epsilon req net0 cache).2.1
      (by simpa [lmAllocs_nil] using hI2)
      (fun s hs => (rank_slice_links_perm req).mem_iff.mp hs)
    rcases hrl : (link_provision p.k p.use_minmax_strategy req
        (node_provision p.alpha p.beta p.epsilon req net0 cache).2.1 nm).1 with _ | lm
    · rw [provision_slice_link_fail p req net0 cache hrn hrl]
      obtain ⟨tch3, _, hI3⟩ := hlp.2 hrl
      obtain ⟨tch4, _, hI4⟩ := rollback_node_mappings_inv_any req hU0 hI3
      exact countersEq_of_attemptInv hI4
    · rw [provision_slice_success p req net0 cache hrn hrl] at hfail
      simp at hfail

/-- C2 witness: a request whose single link demands more bandwidth than the
path network offers is rejected in the link phase with all counters
restored. -/
theorem failed_provisioning_restores_counters_witness :
    UsedNonneg netPath3 ∧ PositiveDemands reqBigLink ∧
      LinksCanonical reqBigLink ∧
      aget netPath3.sliceAllocations reqBigLink.slice_id = none ∧
      (provision_slice defaultParams reqBigLink netPath3 []).1.success = false ∧
      CountersEq (provision_slice defaultParams reqBigLink netPath3 []).2.1
        netPath3 :=
  ⟨by decide, by decide, by decide, by decide, by decide,
    failed_provisioning_restores_counters defaultParams reqBigLink netPath3 []
      (by decide) (by decide) (by decide) (by decide) (by decide)⟩

/-- C9: a provisioning attempt that commits node allocations and then fails
in the link phase is rolled back with per-node / per-link deallocations, which
empty the slice's ledger entry but never delete it: the rejected slice id
still has a ledger entry with empty node and link maps, it is still listed by
get_active_slices, and only deallocate_slice removes the entry. -/
theorem rejected_slice_remains_in_ledger (p : AlgParams)
    (req : SliceRequest) (net0 : PhysicalNetwork) (cache : MetricCache)
    (hU0 : UsedNonneg net0) (hpos : PositiveDemands req)
    (hcanon : LinksCanonical req)
    (hfresh : aget net0.sliceAllocations req.slice_id = none)
    (hnodes : req.nodes ≠ [])
    (hfail : (provision_slice p req net0 cache).1.failure_reason
      = some linkFailMsg) :
    aget ((provision_slice p req net0 cache).2.1).sliceAllocations req.slice_id
        = some ⟨[], []⟩ ∧
      req.slice_id ∈ ((provision_slice p req net0 cache).2.1).get_active_slices ∧
      aget (((provision_slice p req net0 cache).2.1).deallocate_slice
        req.slice_id).sliceAllocations req.slice_id = none := by
  have h0 : AttemptInv net0 req.slice_id false [] 0 net0 := attemptInv_init hfresh
  have hnp := nodeProvisionGo_inv p.alpha p.beta p.epsilon req hU0 hpos
    ((rank_slice_nodes p.alpha p.beta req).map Prod.fst) net0 cache [] false h0
    (fun s hs => (rank_slice_nodes_fst_perm p.alpha p.beta req).mem_iff.mp hs)
  rcases hrn : (node_provision p.alpha p.beta p.epsilon req net0 cache).1 with _ | nm
  · rw [provision_slice_node_fail p req net0 cache hrn] at hfail
    have : nodeFailMsg = linkFailMsg := by simpa using hfail
    exact absurd this (by decide)
  · obtain ⟨tch2, _, hI2, hfst⟩ := hnp.1 nm hrn
    have hnm : nm ≠ [] := by
      intro hcon
      subst hcon
      simp only [List.map_nil, List.nil_append] at hfst
      have hperm := rank_slice_nodes_fst_perm p.alpha p.beta req
      rw [← hfst] at hperm
      have : req.nodes.map Prod.fst = [] := List.Perm.eq_nil (List.Perm.symm hperm)
      exact hnodes (List.map_eq_nil_iff.mp this)
    have htch2 : tch2 = true := by
      cases tch2 with
      | true => rfl
      | false =>
        exfalso
        obtain ⟨_, _, _, _, _, _, _, _, hnp0, _⟩ := hI2
        cases nm with
        | nil => exact hnm rfl
        | cons e t => simp [mappingAllocs] at hnp0
    subst htch2
    have hlp := linkProvisionGo_inv p.k p.use_minmax_strategy req nm hU0 hpos hcanon
      (rank_slice_links_by_bandwidth req) [] true
      (node_provision p.alpha p.beta p.epsilon req net0 cache).2.1
      (by simpa [lmAllocs_nil] using hI2)
      (fun s hs => (rank_slice_links_perm req).mem_iff.mp hs)
    rcases hrl : (link_provision p.k p.use_minmax_strategy req
        (node_provision p.alpha p.beta p.epsilon req net0 cache).2.1 nm).1 with _ | lm
    · obtain ⟨tch3, hm3, hI3⟩ := hlp.2 hrl
      have htch3 : tch3 = true := hm3 rfl
      subst htch3
      obtain ⟨tch4, hm4, hI4⟩ := rollback_node_mappings_inv_any req hU0 hI3
      have htch4 : tch4 = true := hm4 rfl
      subst htch4
      obtain ⟨hkn, hkl, hnc, hlc, hnd, hsN, hsL, hcnt, la, hla, hnodup, hval⟩ := hI4
      have hla0 : la = [] := by
        apply assoc_nil_of_aget_none
        intro kk
        have := hval kk
        simpa [lpAmt_zero] using this
      subst hla0
      rw [provision_slice_link_fail p req net0 cache hrn hrl]
      have hla' : aget (rollback_node_mappings req nm
          (link_provision p.k p.use_minmax_strategy req
            (node_provision p.alpha p.beta p.epsilon req net0 cache).2.1 nm).2).sliceAllocations
          req.slice_id = some ⟨[], []⟩ := hla
      have hcnt' : List.count req.slice_id
          ((rollback_node_mappings req nm
            (link_provision p.k p.use_minmax_strategy req
              (node_provision p.alpha p.beta p.epsilon req net0 cache).2.1 nm).2).sliceAllocations.map
            Prod.fst) = 1 := hcnt
      refine ⟨hla', ?_, ?_⟩
      · unfold PhysicalNetwork.get_active_slices
        exact aget_isSome_iff.mp (by rw [hla']; rfl)
      · unfold PhysicalNetwork.deallocate_slice
        rw [hla']
        dsimp only
        exact aget_adel_self (le_of_eq hcnt')
    · rw [provision_slice_success p req net0 cache hrn hrl] at hfail
      simp at hfail

/-- C9 witness: the oversized-link request is rejected in the link phase and
its empty ledger entry survives the rollback until deallocate_slice. -/
theorem rejected_slice_remains_in_ledger_witness :
    UsedNonneg netPath3 ∧ PositiveDemands reqBigLink ∧
      LinksCanonical reqBigLink ∧
      aget netPath3.sliceAllocations reqBigLink.slice_id = none ∧
      reqBigLink.nodes ≠ [] ∧
      (provision_slice defaultParams reqBigLink netPath3 []).1.failure_reason
        = some linkFailMsg ∧
      (aget ((provision_slice defaultParams reqBigLink netPath3 []).2.1).sliceAllocations
          reqBigLink.slice_id = some ⟨[], []⟩ ∧
        reqBigLink.slice_id ∈
          ((provision_slice defaultParams reqBigLink netPath3 []).2.1).get_active_slices ∧
        aget (((provision_slice defaultParams reqBigLink netPath3 []).2.1).deallocate_slice
          reqBigLink.slice_id).sliceAllocations reqBigLink.slice_id = none) :=
  ⟨by decide, by decide, by decide, by decide, by decide, by decide,
    rejected_slice_remains_in_ledger defaultParams reqBigLink netPath3 []
      (by decide) (by decide) (by decide) (by decide) (by decide) (by decide)⟩

/-- Structure of a successful node-provisioning run, independent of any
resource accounting: the mapped slice nodes extend the accumulator by exactly
the worklist, and distinctness of the used physical nodes is preserved
(the one-to-one candidate filter). -/
theorem nodeProvisionGo_success_shape (alpha beta epsilon : ℚ) (req : SliceRequest) :
    ∀ (todo : List String) (net : PhysicalNetwork) (cache : MetricCache)
      (mapping m' : List (String × String)),
      (nodeProvisionGo alpha beta epsilon req todo net cache mapping).1 = some m' →
      m'.map Prod.fst = mapping.map Prod.fst ++ todo ∧
      ((mapping.map Prod.snd).Nodup → (m'.map Prod.snd).Nodup)
  | [], net, cache, mapping, m', hs => by
    rw [show nodeProvisionGo alpha beta epsilon req [] net cache mapping
      = (some mapping, net, cache) from rfl] at hs
    have hse : mapping = m' := Option.some.inj (by simpa using hs)
    subst hse
    exact ⟨by simp, fun h => h⟩
  | s :: rest, net, cache, mapping, m', hs => by
    by_cases hc1 : (get_candidate_physical_nodes req net s).isEmpty = true
    · rw [show nodeProvisionGo alpha beta epsilon req (s :: rest) net cache mapping
        = (none, rollback_node_mappings req mapping net, cache) from by
          simp only [nodeProvisionGo]; rw [if_pos hc1]] at hs
      exact absurd hs (by simp)
    · by_cases hc2 : ((get_candidate_physical_nodes req net s).filter
          fun c => !(mapping.any fun q => decide (q.2 = c))).isEmpty = true
      · rw [show nodeProvisionGo alpha beta epsilon req (s :: rest) net cache mapping
          = (none, rollback_node_mappings req mapping net, cache) from by
            simp only [nodeProvisionGo]; rw [if_neg hc1, if_pos hc2]] at hs
        exact absurd hs (by simp)
      · rcases hr : (rank_physical_nodes alpha beta epsilon net cache
            ((get_candidate_physical_nodes req net s).filter
              fun c => !(mapping.any fun q => decide (q.2 = c)))
            (get_mapped_neighbors req s mapping)).1 with _ | ⟨⟨best, score⟩, rtl⟩
        · rw [show nodeProvisionGo alpha beta epsilon req (s :: rest) net cache mapping
            = (none, rollback_node_mappings req mapping net,
              (rank_physical_nodes alpha beta epsilon net cache
                ((get_candidate_physical_nodes req net s).filter
                  fun c => !(mapping.any fun q => decide (q.2 = c)))
                (get_mapped_neighbors req s mapping)).2) from by
              simp only [nodeProvisionGo]; rw [if_neg hc1, if_neg hc2]
              rw [hr]] at hs
          exact absurd hs (by simp)
        · by_cases ha : (net.allocate_node_resources best
              (req.get_node_cpu_demand s) req.slice_id).1 = true
          · rw [show nodeProvisionGo alpha beta epsilon req (s :: rest) net cache mapping
              = nodeProvisionGo alpha beta epsilon req rest
                (net.allocate_node_resources best
                  (req.get_node_cpu_demand s) req.slice_id).2
                (rank_physical_nodes alpha beta epsilon net cache
                  ((get_candidate_physical_nodes req net s).filter
                    fun c => !(mapping.any fun q => decide (q.2 = c)))
                  (get_mapped_neighbors req s mapping)).2
                (mapping ++ [(s, best)]) from by
                simp only [nodeProvisionGo]; rw [if_neg hc1, if_neg hc2]
                rw [hr]; dsimp only; rw [if_pos ha]] at hs
            obtain ⟨hfst, hnd⟩ := nodeProvisionGo_success_shape alpha beta epsilon req
              rest _ _ (mapping ++ [(s, best)]) m' hs
            refine ⟨?_, fun hmap => ?_⟩
            · rw [hfst]; simp
            · refine hnd ?_
              have hbest : best ∈ (get_candidate_physical_nodes req net s).filter
                  fun c => !(mapping.any fun q => decide (q.2 = c)) := by
                have hmem : ((best, score) : String × ℚ) ∈
                    (rank_physical_nodes alpha beta epsilon net cache
                      ((get_candidate_physical_nodes req net s).filter
                        fun c => !(mapping.any fun q => decide (q.2 = c)))
                      (get_mapped_neighbors req s mapping)).1 := by
                  rw [hr]; exact List.mem_cons_self _ _
                exact rank_physical_nodes_fst_mem alpha beta epsilon net cache _ _ hmem
              have hfresh : best ∉ mapping.map Prod.snd := by
                have hflt := List.of_mem_filter hbest
                simp only [Bool.not_eq_true', List.any_eq_false, decide_eq_true_eq] at hflt
                intro hcon
                rcases List.mem_map.mp hcon with ⟨q, hq, hq2⟩
                simp at hflt
                exact hflt q.1 q.2 hq hq2
              rw [List.map_append]
              exact List.Nodup.append hmap (by simp)
                (by simpa [List.disjoint_singleton] using hfresh)
          · rw [show nodeProvisionGo alpha beta epsilon req (s :: rest) net cache mapping
              = (none, rollback_node_mappings req mapping
                (net.allocate_node_resources best
                  (req.get_node_cpu_demand s) req.slice_id).2,
                (rank_physical_nodes alpha beta epsilon net cache
                  ((get_candidate_physical_nodes req net s).filter
                    fun c => !(mapping.any fun q => decide (q.2 = c)))
                  (get_mapped_neighbors req s mapping)).2) from by
                simp only [nodeProvisionGo]; rw [if_neg hc1, if_neg hc2]
                rw [hr]; dsimp only; rw [if_neg ha]] at hs
            exact absurd hs (by simp)

/-- Structure of a successful link-provisioning run: the mapped slice links
extend the accumulator by exactly the worklist, in order. -/
theorem linkProvisionGo_success_shape (k : ℕ) (um : Bool) (req : SliceRequest)
    (mapping : List (String × String)) :
    ∀ (todo : List (String × String))
      (lm lm' : List ((String × String) × List String)) (net : PhysicalNetwork),
      (linkProvisionGo k um req mapping todo net lm).1 = some lm' →
      lm'.map Prod.fst = lm.map Prod.fst ++ todo
  | [], lm, lm', net, hs => by
    rw [show linkProvisionGo k um req mapping [] net lm = (some lm, net) from rfl] at hs
    have hse : lm = lm' := Option.some.inj (by simpa using hs)
    subst hse
    simp
  | slink :: rest, lm, lm', net, hs => by
    rcases h1 : aget mapping slink.1 with _ | psrc
    · rw [show linkProvisionGo k um req mapping (slink :: rest) net lm
        = (none, rollback_link_mappings req lm net) from by
          simp only [linkProvisionGo]; rw [h1]] at hs
      exact absurd hs (by simp)
    · rcases h2 : aget mapping slink.2 with _ | pdst
      · rw [show linkProvisionGo k um req mapping (slink :: rest) net lm
          = (none, rollback_link_mappings req lm net) from by
            simp only [linkProvisionGo]; rw [h1, h2]] at hs
        exact absurd hs (by simp)
      · rcases hyen : k_shortest_paths_with_bandwidth net psrc pdst
            (req.get_link_bandwidth_demand slink.1 slink.2) k with _ | ⟨c0, crest⟩
        · rw [show linkProvisionGo k um req mapping (slink :: rest) net lm
            = (none, rollback_link_mappings req lm net) from by
              simp only [linkProvisionGo]; rw [h1, h2]
              dsimp only; rw [hyen]] at hs
          exact absurd hs (by simp)
        · by_cases har : (net.allocate_path_resources
              (if um then (minmax_bw_util_hops net (c0 :: crest)).getD c0 else c0).nodes
              (req.get_link_bandwidth_demand slink.1 slink.2) req.slice_id).1 = true
          · rw [show linkProvisionGo k um req mapping (slink :: rest) net lm
              = linkProvisionGo k um req mapping rest
                (net.allocate_path_resources
                  (if um then (minmax_bw_util_hops net (c0 :: crest)).getD c0 else c0).nodes
                  (req.get_link_bandwidth_demand slink.1 slink.2) req.slice_id).2
                (lm ++ [(slink,
                  (if um then (minmax_bw_util_hops net (c0 :: crest)).getD c0 else c0).nodes)])
              from by
                simp only [linkProvisionGo]; rw [h1, h2]
                dsimp only; rw [hyen]; dsimp only; rw [if_pos har]] at hs
            have hfst := linkProvisionGo_success_shape k um req mapping rest
              (lm ++ [(slink,
                (if um then (minmax_bw_util_hops net (c0 :: crest)).getD c0 else c0).nodes)])
              lm' _ hs
            rw [hfst]
            simp
          · rw [show linkProvisionGo k um req mapping (slink :: rest) net lm
              = (none, rollback_link_mappings req lm
                (net.allocate_path_resources
                  (if um then (minmax_bw_util_hops net (c0 :: crest)).getD c0 else c0).nodes
                  (req.get_link_bandwidth_demand slink.1 slink.2) req.slice_id).2)
              from by
                simp only [linkProvisionGo]; rw [h1, h2]
                dsimp only; rw [hyen]; dsimp only; rw [if_neg har]] at hs
            exact absurd hs (by simp)

/-- C3: a successful provision_slice yields a node mapping whose domain is
exactly the slice's node set with pairwise-distinct physical hosts (an
injective map), and a link mapping whose domain is exactly the slice's link
set with each slice link appearing exactly once.  SliceWF states the dict
well-formedness of the request (unique node and link keys). -/
theorem successful_mapping_injective (p : AlgParams) (req : SliceRequest)
    (net0 : PhysicalNetwork) (cache : MetricCache) (hwf : SliceWF req)
    (hsucc : (provision_slice p req net0 cache).1.success = true) :
    ((provision_slice p req net0 cache).1.node_mapping.map Prod.fst).Perm
        (req.nodes.map Prod.fst) ∧
      ((provision_slice p req net0 cache).1.node_mapping.map Prod.fst).Nodup ∧
      ((provision_slice p req net0 cache).1.node_mapping.map Prod.snd).Nodup ∧
      ((provision_slice p req net0 cache).1.link_mapping.map Prod.fst).Perm
        (req.links.map Prod.fst) ∧
      ((provision_slice p req net0 cache).1.link_mapping.map Prod.fst).Nodup := by
  rcases hrn : (node_provision p.alpha p.beta p.epsilon req net0 cache).1 with _ | nm
  · rw [provision_slice_node_fail p req net0 cache hrn] at hsucc
    simp at hsucc
  · rcases hrl : (link_provision p.k p.use_minmax_strategy req
        (node_provision p.alpha p.beta p.epsilon req net0 cache).2.1 nm).1 with _ | lm
    · rw [provision_slice_link_fail p req net0 cache hrn hrl] at hsucc
      simp at hsucc
    · rw [provision_slice_success p req net0 cache hrn hrl]
      dsimp only
      obtain ⟨hfstN, hndN⟩ := nodeProvisionGo_success_shape p.alpha p.beta p.epsilon
        req ((rank_slice_nodes p.alpha p.beta req).map Prod.fst) net0 cache [] nm hrn
      have hfstL := linkProvisionGo_success_shape p.k p.use_minmax_strategy req nm
        (rank_slice_links_by_bandwidth req) [] lm
        (node_provision p.alpha p.beta p.epsilon req net0 cache).2.1 hrl
      have hpermN : (nm.map Prod.fst).Perm (req.nodes.map Prod.fst) := by
        rw [hfstN]
        simpa using rank_slice_nodes_fst_perm p.alpha p.beta req
      have hpermL : (lm.map Prod.fst).Perm (req.links.map Prod.fst) := by
        rw [hfstL]
        simpa using rank_slice_links_perm req
      exact ⟨hpermN, hpermN.nodup_iff.mpr hwf.1, hndN (by simp), hpermL,
        hpermL.nodup_iff.mpr hwf.2⟩

/-- C3 witness: the one-node request is accepted on the single-node network
with the injective mapping x ↦ a. -/
theorem successful_mapping_injective_witness :
    SliceWF reqOne ∧
      (provision_slice defaultParams reqOne netSingle []).1.success = true ∧
      ((provision_slice defaultParams reqOne netSingle []).1.node_mapping.map
          Prod.fst).Perm (reqOne.nodes.map Prod.fst) ∧
      ((provision_slice defaultParams reqOne netSingle []).1.node_mapping.map
          Prod.fst).Nodup ∧
      ((provision_slice defaultParams reqOne netSingle []).1.node_mapping.map
          Prod.snd).Nodup ∧
      ((provision_slice defaultParams reqOne netSingle []).1.link_mapping.map
          Prod.fst).Perm (reqOne.links.map Prod.fst) ∧
      ((provision_slice defaultParams reqOne netSingle []).1.link_mapping.map
          Prod.fst).Nodup := by
  refine ⟨by decide, by decide, ?_⟩
  have h := successful_mapping_injective defaultParams reqOne netSingle []
    (by decide) (by decide)
  exact ⟨h.1, h.2.1, h.2.2.1, h.2.2.2.1, h.2.2.2.2⟩

end SliceRes
